import Mathlib

/-!
# Verification of the TCP chat router (CPE464 project 2)

Shallow embedding of the chat router's core, translated from the C++
sources:

* `PDU_Send_And_Recv.cpp` — the 3-byte-header PDU codec (`sendBuf` /
  `recvBuf`);
* `BinarySearchHelper.h` — the handle comparison (`comparesHandles`,
  built on `strncasecmp`), `binarySearch` and `findInsertionIndex`;
* `Dynamic_Array.cpp` (sorted version) — the handle directory
  (`addElement`, `removeElement`, `removeElementBySocket`,
  `getSocketForHandle`);
* `server.cpp` — the router (`forwardBroadcast`, `forwardDirectMessage`,
  `sendErrorForInvalidHandle`, `processListRequest`, `processClientExit`,
  `processClientPacket`, `processNewClient`);
* `cclient.cpp` — outbound message segmentation
  (`handleMessageCommand`).

Bytes are modelled as `Nat` (wire bytes are < 256; the hypotheses of the
theorems keep every value that the code stores into a byte within
range).  Machine `int` results (`-1` for "not found", socket numbers)
are modelled as `Int`.
-/

namespace Chat

/-! ## Byte-level helpers -/

/-- ASCII lower-casing of one byte, as done by C `tolower` on ASCII
(used by `strncasecmp`). -/
def toLowerB (c : Nat) : Nat :=
  if 65 ≤ c ∧ c ≤ 90 then c + 32 else c

/-- Case-fold a byte string. -/
def caseFold (l : List Nat) : List Nat := l.map toLowerB

/-- C `strncasecmp s1 s2 n`: compare at most `n` bytes case-insensitively,
stopping at the first difference or at a NUL byte.  The catch-all branch
(reading past the end of a buffer) is undefined behaviour in C and never
reached at the call sites, where `n` is at most both lengths. -/
def strncasecmp : List Nat → List Nat → Nat → Int
  | _, _, 0 => 0
  | c1 :: t1, c2 :: t2, n + 1 =>
      if (toLowerB c1 : Int) - (toLowerB c2 : Int) = 0 then
        (if c1 = 0 then 0 else strncasecmp t1 t2 n)
      else (toLowerB c1 : Int) - (toLowerB c2 : Int)
  | _, _, _ + 1 => 0

/-- `BinarySearchHelper::comparesHandles` (BinarySearchHelper.h, lines
26–39): case-insensitive comparison of the common prefix via
`strncasecmp`; on a tie the shorter handle sorts first.  A `Handling`
value is modelled by the list of its meaningful bytes (the C++ struct
stores the length separately; here it is the list length). -/
def comparesHandles (h1 h2 : List Nat) : Int :=
  if strncasecmp h1 h2 (min h1.length h2.length) = 0 then
    (h1.length : Int) - (h2.length : Int)
  else strncasecmp h1 h2 (min h1.length h2.length)

/-- The bytes a C string variable holds: everything before the first NUL
(models applying `strlen`/C-string reading to a buffer). -/
def cstrOf (l : List Nat) : List Nat := l.takeWhile (fun b => b ≠ 0)

/-! ## PDU codec (`PDU_Send_And_Recv.cpp`) -/

/-- `PDU_Send_And_Recv::sendBuf` (PDU_Send_And_Recv.cpp, lines 106–164):
the assembled frame.  Header: `uint16 totalLength = lengthOfData + 3`
stored big-endian (`htons`), then the one-byte flag
(`static_cast<uint8_t>(flagValue)`), then the payload. -/
def sendBuf (flagValue : Nat) (data : List Nat) : List Nat :=
  [(data.length + 3) % 65536 / 256, (data.length + 3) % 65536 % 256,
   flagValue % 256] ++ data

/-- Result of one `recv(..., MSG_WAITALL)` call as seen by `recvBuf`:
an I/O error (`recv < 0`), an orderly close (`recv == 0`), or the bytes
delivered. -/
inductive NetRead
  | ioError
  | closed
  | bytes (bs : List Nat)
deriving DecidableEq, Repr

/-- Outcome of `PDU_Send_And_Recv::recvBuf`: the process exits
(`exit(EXIT_FAILURE)` after `perror`), the function returns `-1`
(connection closed), returns `VALID_ZERO_PAYLOAD = -2` with the flag, or
returns the payload together with the flag. -/
inductive RecvOutcome
  | exitProcess
  | connClosed
  | validZeroPayload (flag : Nat)
  | pkt (flag : Nat) (payload : List Nat)
deriving DecidableEq, Repr

/-- `PDU_Send_And_Recv::recvBuf` (PDU_Send_And_Recv.cpp, lines 43–103),
parameterised by the results of its two `recv` calls (header read, then
payload read).  `pduLength` is read back with `ntohs` from the first two
header bytes, the flag is the third byte; the payload length is
`pduLength - SIZE_CHAT_HEADER` as a C `int`, and the payload `recv`
only happens when it is nonzero. -/
def recvBuf (hdr pl : NetRead) : RecvOutcome :=
  match hdr with
  | .ioError => .exitProcess
  | .closed => .connClosed
  | .bytes hb =>
      if ((hb.getD 0 0 * 256 + hb.getD 1 0 : Nat) : Int) - 3 = 0 then
        .validZeroPayload (hb.getD 2 0)
      else
        match pl with
        | .ioError => .exitProcess
        | .closed => .connClosed
        | .bytes pb => .pkt (hb.getD 2 0) pb

/-- Feed a byte stream to `recvBuf`: the header read delivers the first
3 bytes (or signals close on an empty stream), the payload read delivers
the next `pduLength - 3` bytes of the stream (or signals close when the
stream is exhausted), exactly as a blocking `MSG_WAITALL` socket would. -/
def recvBufFromStream (stream : List Nat) : RecvOutcome :=
  recvBuf
    (if stream = [] then .closed else .bytes (stream.take 3))
    (if stream.drop 3 = [] then .closed
     else .bytes
       ((stream.drop 3).take (stream.getD 0 0 * 256 + stream.getD 1 0 - 3)))

/-- Outcome of the send loop in `sendBuf`: all bytes written, the
process exits (`send` returned an error or `0`), or the modelled list of
`send` results ran out before the frame was fully written (the real
loop would block for more). -/
inductive SendOutcome
  | ok (totalSent : Nat)
  | exitProcess
  | incomplete
deriving DecidableEq, Repr

/-- The send loop of `PDU_Send_And_Recv::sendBuf` (lines 134–152),
parameterised by the sequence of `send` return values: a negative
result (`perror("send error")`) or a zero result both call
`exit(EXIT_FAILURE)`; positive results accumulate until `totalLength`
bytes are written. -/
def sendLoop (totalLength : Nat) (totalSent : Nat) : List Int → SendOutcome
  | [] => if totalSent < totalLength then .incomplete else .ok totalSent
  | r :: rs =>
      if totalSent < totalLength then
        if r < 0 then .exitProcess
        else if r = 0 then .exitProcess
        else sendLoop totalLength (totalSent + r.toNat) rs
      else .ok totalSent

/-- `sendBuf`'s I/O behaviour: loop until `lengthOfData + 3` bytes (the
`uint16` total length) are sent. -/
def sendBufNet (lengthOfData : Nat) (results : List Int) : SendOutcome :=
  sendLoop ((lengthOfData + 3) % 65536) 0 results

/-! ## C1: codec round-trip -/

theorem recvBufFromStream_cons (a b c : Nat) (rest : List Nat) :
    recvBufFromStream (a :: b :: c :: rest) =
      recvBuf (.bytes [a, b, c])
        (if rest = [] then .closed else .bytes (rest.take (a * 256 + b - 3))) := by
  simp [recvBufFromStream]

theorem recvBuf_bytes (a b c : Nat) (pl : NetRead) :
    recvBuf (.bytes [a, b, c]) pl =
      if ((a * 256 + b : Nat) : Int) - 3 = 0 then .validZeroPayload c
      else
        match pl with
        | .ioError => .exitProcess
        | .closed => .connClosed
        | .bytes pb => .pkt c pb := rfl

theorem sendBuf_eq (flag : Nat) (data : List Nat)
    (h : data.length ≤ 65532) :
    sendBuf flag data =
      [(data.length + 3) / 256, (data.length + 3) % 256, flag % 256]
        ++ data := by
  unfold sendBuf
  rw [Nat.mod_eq_of_lt (by omega : data.length + 3 < 65536)]

/-- C1.  For every flag below 256 and payload of length at most 65532,
decoding (`recvBuf`) the frame produced by encoding (`sendBuf`) yields
back the identical flag and payload — the empty payload coming back
through the distinguished `VALID_ZERO_PAYLOAD` result — and the frame
starts with the big-endian 16-bit value `len(payload) + 3` followed by
the one-byte flag. -/
theorem pdu_roundtrip (flag : Nat) (payload : List Nat)
    (hflag : flag < 256) (hlen : payload.length ≤ 65532) :
    recvBufFromStream (sendBuf flag payload) =
      (if payload = [] then RecvOutcome.validZeroPayload flag
       else RecvOutcome.pkt flag payload)
    ∧ (sendBuf flag payload).take 2 =
        [(payload.length + 3) / 256, (payload.length + 3) % 256]
    ∧ (sendBuf flag payload).getD 2 0 = flag := by
  have hfm : flag % 256 = flag := Nat.mod_eq_of_lt hflag
  have hdm : (payload.length + 3) / 256 * 256 + (payload.length + 3) % 256
      = payload.length + 3 := by
    rw [Nat.mul_comm]; exact Nat.div_add_mod _ _
  rw [sendBuf_eq flag payload hlen]
  refine ⟨?_, by rfl, by simp [hfm]⟩
  rcases payload with _ | ⟨b, bs⟩
  · simp [recvBufFromStream, recvBuf, hfm]
  · rw [show ((((b :: bs).length + 3) / 256 :: ((b :: bs).length + 3) % 256 ::
        flag % 256 :: []) ++ b :: bs) =
        (((b :: bs).length + 3) / 256 :: ((b :: bs).length + 3) % 256 ::
        flag % 256 :: b :: bs) from rfl]
    rw [recvBufFromStream_cons, recvBuf_bytes]
    rw [if_neg (by simp : ¬(b :: bs) = [])]
    rw [if_neg (by rw [hdm]; simp only [List.length_cons]; push_cast; omega :
      ¬((((b :: bs).length + 3) / 256 * 256 + ((b :: bs).length + 3) % 256 :
        Nat) : Int) - 3 = 0)]
    rw [hdm, hfm, Nat.add_sub_cancel, List.take_length]
    simp

/-! ## Reference lexicographic comparator

`lexCmp` is a specification-side three-way lexicographic comparison of
byte strings (shorter prefix first).  It is used to characterise
`comparesHandles`: on NUL-free handles, `comparesHandles` compares the
case-folded bytes lexicographically. -/

def lexCmp : List Nat → List Nat → Int
  | [], [] => 0
  | [], _ :: _ => -1
  | _ :: _, [] => 1
  | a :: t1, b :: t2 =>
      if a < b then -1 else if b < a then 1 else lexCmp t1 t2

theorem lexCmp_eq_zero_iff : ∀ l1 l2 : List Nat, lexCmp l1 l2 = 0 ↔ l1 = l2
  | [], [] => by simp [lexCmp]
  | [], _ :: _ => by simp [lexCmp]
  | _ :: _, [] => by simp [lexCmp]
  | a :: t1, b :: t2 => by
    by_cases hab : a < b
    · simp [lexCmp, hab]; omega
    · by_cases hba : b < a
      · simp [lexCmp, hab, hba]; omega
      · have hH : a = b := by omega
        simp [lexCmp, hab, hba, hH, lexCmp_eq_zero_iff t1 t2]

theorem lexCmp_swap : ∀ l1 l2 : List Nat, lexCmp l2 l1 = -lexCmp l1 l2
  | [], [] => by simp [lexCmp]
  | [], _ :: _ => by simp [lexCmp]
  | _ :: _, [] => by simp [lexCmp]
  | a :: t1, b :: t2 => by
    by_cases hab : a < b
    · simp [lexCmp, hab, Nat.lt_asymm hab]
    · by_cases hba : b < a
      · simp [lexCmp, hab, hba]
      · simp [lexCmp, hab, hba, lexCmp_swap t1 t2]

theorem lexCmp_cases : ∀ l1 l2 : List Nat,
    lexCmp l1 l2 = -1 ∨ lexCmp l1 l2 = 0 ∨ lexCmp l1 l2 = 1
  | [], [] => by simp [lexCmp]
  | [], _ :: _ => by simp [lexCmp]
  | _ :: _, [] => by simp [lexCmp]
  | a :: t1, b :: t2 => by
    by_cases hab : a < b
    · simp [lexCmp, hab]
    · by_cases hba : b < a
      · simp [lexCmp, hab, hba]
      · simpa [lexCmp, hab, hba] using lexCmp_cases t1 t2

theorem lexCmp_cons_cons (a b : Nat) (t1 t2 : List Nat) :
    lexCmp (a :: t1) (b :: t2)
      = if a < b then -1 else if b < a then 1 else lexCmp t1 t2 := rfl

theorem lexCmp_trans_neg : ∀ l1 l2 l3 : List Nat,
    lexCmp l1 l2 = -1 → lexCmp l2 l3 = -1 → lexCmp l1 l3 = -1
  | [], [], _ => by intro h12 _; simp [lexCmp] at h12
  | _ :: _, [], _ => by intro h12 _; simp [lexCmp] at h12
  | [], _ :: t2, [] => by intro _ h23; simp [lexCmp] at h23
  | [], _ :: t2, _ :: t3 => by intro _ _; simp [lexCmp]
  | _ :: _, _ :: _, [] => by intro _ h23; simp [lexCmp] at h23
  | a :: t1, b :: t2, c :: t3 => by
    intro h12 h23
    rw [lexCmp_cons_cons] at h12 h23 ⊢
    split_ifs at h12 h23 ⊢ <;>
      first
        | rfl
        | omega
        | exact lexCmp_trans_neg t1 t2 t3 h12 h23

theorem lexCmp_of_proper_take : ∀ l1 l2 : List Nat,
    l1 = l2.take l1.length → l1.length < l2.length → lexCmp l1 l2 = -1
  | [], [] => by intro _ h; simp at h
  | [], _ :: _ => by intro _ _; simp [lexCmp]
  | _ :: _, [] => by intro _ h; simp at h
  | a :: t1, b :: t2 => by
    intro hpre hlt
    simp only [List.length_cons, List.take_succ_cons, List.cons.injEq] at hpre
    rcases hpre with ⟨rfl, hpre⟩
    have := lexCmp_of_proper_take t1 t2 hpre (by simpa using hlt)
    simp [lexCmp, this]

/-! ## Characterisation of `comparesHandles` on NUL-free handles -/

theorem comparesHandles_cons_of_eq {a b : Nat} (t1 t2 : List Nat)
    (hl : toLowerB a = toLowerB b) (ha : a ≠ 0) :
    comparesHandles (a :: t1) (b :: t2) = comparesHandles t1 t2 := by
  have hmin : min (a :: t1).length (b :: t2).length
      = min t1.length t2.length + 1 := by
    simp [Nat.succ_min_succ]
  have hs : strncasecmp (a :: t1) (b :: t2) (min t1.length t2.length + 1)
      = strncasecmp t1 t2 (min t1.length t2.length) := by
    simp [strncasecmp, hl, ha]
  unfold comparesHandles
  rw [hmin, hs]
  by_cases h0 : strncasecmp t1 t2 (min t1.length t2.length) = 0
  · rw [if_pos h0, if_pos h0]
    simp only [List.length_cons]
    push_cast
    ring
  · rw [if_neg h0, if_neg h0]

theorem comparesHandles_cons_of_ne {a b : Nat} (t1 t2 : List Nat)
    (hl : toLowerB a ≠ toLowerB b) :
    comparesHandles (a :: t1) (b :: t2)
      = (toLowerB a : Int) - (toLowerB b : Int) := by
  have hmin : min (a :: t1).length (b :: t2).length
      = min t1.length t2.length + 1 := by
    simp [Nat.succ_min_succ]
  have hd : ((toLowerB a : Int) - (toLowerB b : Int)) ≠ 0 := by
    intro h; apply hl; omega
  have hs : strncasecmp (a :: t1) (b :: t2) (min t1.length t2.length + 1)
      = (toLowerB a : Int) - (toLowerB b : Int) := by
    simp [strncasecmp, hd]
  unfold comparesHandles
  rw [hmin, hs, if_neg hd]

/-- On NUL-free byte strings, the sign of `comparesHandles` is the
lexicographic comparison of the case-folded bytes (shorter
prefix-equal string first). -/
theorem comparesHandles_sign : ∀ h1 h2 : List Nat, 0 ∉ h1 → 0 ∉ h2 →
    (comparesHandles h1 h2).sign = lexCmp (caseFold h1) (caseFold h2)
  | [], [] => by intro _ _; simp [comparesHandles, strncasecmp, caseFold, lexCmp]
  | [], b :: t2 => by
    intro _ _
    have : comparesHandles [] (b :: t2) = -((t2.length + 1 : Nat) : Int) := by
      simp [comparesHandles, strncasecmp]
    rw [this]
    simp [caseFold, lexCmp, Int.sign_eq_neg_one_iff_neg]
    omega
  | a :: t1, [] => by
    intro _ _
    have : comparesHandles (a :: t1) [] = ((t1.length + 1 : Nat) : Int) := by
      simp [comparesHandles, strncasecmp]
    rw [this]
    simp [caseFold, lexCmp, Int.sign_eq_one_iff_pos]
  | a :: t1, b :: t2 => by
    intro h1n h2n
    have ha : a ≠ 0 := fun h => h1n (h ▸ List.mem_cons_self a t1)
    have h1n' : 0 ∉ t1 := fun h => h1n (List.mem_cons_of_mem _ h)
    have h2n' : 0 ∉ t2 := fun h => h2n (List.mem_cons_of_mem _ h)
    by_cases hl : toLowerB a = toLowerB b
    · rw [comparesHandles_cons_of_eq t1 t2 hl ha]
      have : caseFold (a :: t1) = toLowerB a :: caseFold t1 := rfl
      rw [this, show caseFold (b :: t2) = toLowerB b :: caseFold t2 from rfl]
      rw [hl]
      have hrec : lexCmp (toLowerB b :: caseFold t1) (toLowerB b :: caseFold t2)
          = lexCmp (caseFold t1) (caseFold t2) := by
        simp [lexCmp]
      rw [hrec]
      exact comparesHandles_sign t1 t2 h1n' h2n'
    · rw [comparesHandles_cons_of_ne t1 t2 hl]
      rw [show caseFold (a :: t1) = toLowerB a :: caseFold t1 from rfl,
        show caseFold (b :: t2) = toLowerB b :: caseFold t2 from rfl]
      by_cases hab : toLowerB a < toLowerB b
      · rw [show lexCmp (toLowerB a :: caseFold t1) (toLowerB b :: caseFold t2)
            = -1 by simp [lexCmp, hab]]
        rw [Int.sign_eq_neg_one_iff_neg]
        omega
      · have hba : toLowerB b < toLowerB a := by omega
        rw [show lexCmp (toLowerB a :: caseFold t1) (toLowerB b :: caseFold t2)
            = 1 by simp [lexCmp, hab, hba]]
        rw [Int.sign_eq_one_iff_pos]
        omega

theorem comparesHandles_eq_zero_iff {h1 h2 : List Nat}
    (hn1 : 0 ∉ h1) (hn2 : 0 ∉ h2) :
    comparesHandles h1 h2 = 0 ↔ caseFold h1 = caseFold h2 := by
  rw [← lexCmp_eq_zero_iff]
  rw [← comparesHandles_sign h1 h2 hn1 hn2]
  constructor
  · intro h; rw [h]; rfl
  · intro h; exact Int.sign_eq_zero_iff_zero.mp h

theorem comparesHandles_neg_iff {h1 h2 : List Nat}
    (hn1 : 0 ∉ h1) (hn2 : 0 ∉ h2) :
    comparesHandles h1 h2 < 0 ↔ lexCmp (caseFold h1) (caseFold h2) = -1 := by
  rw [← comparesHandles_sign h1 h2 hn1 hn2]
  constructor
  · intro h; rwa [Int.sign_eq_neg_one_iff_neg]
  · intro h; rwa [← Int.sign_eq_neg_one_iff_neg]

theorem comparesHandles_pos_iff {h1 h2 : List Nat}
    (hn1 : 0 ∉ h1) (hn2 : 0 ∉ h2) :
    0 < comparesHandles h1 h2 ↔ lexCmp (caseFold h1) (caseFold h2) = 1 := by
  rw [← comparesHandles_sign h1 h2 hn1 hn2]
  constructor
  · intro h; rwa [Int.sign_eq_one_iff_pos]
  · intro h; rwa [← Int.sign_eq_one_iff_pos]

theorem comparesHandles_trans_neg {h1 h2 h3 : List Nat}
    (hn1 : 0 ∉ h1) (hn2 : 0 ∉ h2) (hn3 : 0 ∉ h3)
    (h12 : comparesHandles h1 h2 < 0) (h23 : comparesHandles h2 h3 < 0) :
    comparesHandles h1 h3 < 0 := by
  rw [comparesHandles_neg_iff hn1 hn3]
  exact lexCmp_trans_neg _ _ _
    ((comparesHandles_neg_iff hn1 hn2).mp h12)
    ((comparesHandles_neg_iff hn2 hn3).mp h23)

theorem comparesHandles_asymm {h1 h2 : List Nat}
    (hn1 : 0 ∉ h1) (hn2 : 0 ∉ h2)
    (h12 : comparesHandles h1 h2 < 0) (h21 : comparesHandles h2 h1 < 0) :
    False := by
  have a12 := (comparesHandles_neg_iff hn1 hn2).mp h12
  have a21 := (comparesHandles_neg_iff hn2 hn1).mp h21
  rw [lexCmp_swap] at a21
  omega

/-! ## C3: the directory's fixed handle ordering -/

/-- C3 counterexample.  The claim says two handles compare equal only
when byte-for-byte identical, under a byte-wise comparison of raw
bytes; but `comparesHandles` uses `strncasecmp`, so the one-byte handles
`"A"` (65) and `"a"` (97) compare equal although their bytes differ
(and byte-wise 65 < 97 would demand a negative result). -/
theorem comparesHandles_case_insensitive_cex :
    comparesHandles [65] [97] = 0 ∧ [65] ≠ ([97] : List Nat) := by
  constructor
  · rfl
  · decide

/-- C3 amended.  The directory's single fixed comparison orders handles
by byte-wise prefix comparison of their ASCII case-folded bytes, a
handle whose case-folded bytes are a proper prefix of the other's
sorting first; two NUL-free handles compare equal exactly when they are
identical up to ASCII letter case (in particular of equal length). -/
theorem comparesHandles_spec (h1 h2 : List Nat)
    (hn1 : 0 ∉ h1) (hn2 : 0 ∉ h2) :
    (comparesHandles h1 h2 = 0 ↔ caseFold h1 = caseFold h2)
    ∧ (comparesHandles h1 h2 = 0 → h1.length = h2.length)
    ∧ (caseFold h1 = (caseFold h2).take h1.length → h1.length < h2.length →
        comparesHandles h1 h2 < 0) := by
  refine ⟨comparesHandles_eq_zero_iff hn1 hn2, ?_, ?_⟩
  · intro h
    have := (comparesHandles_eq_zero_iff hn1 hn2).mp h
    have hlen := congrArg List.length this
    simpa [caseFold] using hlen
  · intro hpre hlt
    rw [comparesHandles_neg_iff hn1 hn2]
    apply lexCmp_of_proper_take
    · rwa [show (caseFold h1).length = h1.length by simp [caseFold]]
    · simpa [caseFold] using hlt

/-- Witness for the amended C3 at concrete inputs:
`"a"` versus `"AB"`. -/
theorem comparesHandles_spec_witness :
    (comparesHandles [97] [65, 66] = 0 ↔
      caseFold [97] = caseFold [65, 66])
    ∧ (comparesHandles [97] [65, 66] = 0 →
        ([97] : List Nat).length = ([65, 66] : List Nat).length)
    ∧ (caseFold [97] = (caseFold [65, 66]).take ([97] : List Nat).length →
        ([97] : List Nat).length < ([65, 66] : List Nat).length →
        comparesHandles [97] [65, 66] < 0) :=
  comparesHandles_spec [97] [65, 66] (by decide) (by decide)

/-! ## Handle directory (`Dynamic_Array.cpp`, sorted version, and
`BinarySearchHelper.h`) -/

/-- `Entry_Handle_Table` (Dynamic_Array.h): one directory entry, a
socket descriptor and the handle bytes.  The directory's live region
(indices `0..count-1` of the calloc-zeroed backing array) is modelled as
a list of entries. -/
structure Entry_Handle_Table where
  socketNumber : Int
  handle : List Nat
deriving DecidableEq, Repr, Inhabited

/-- Loop of `BinarySearchHelper::binarySearch` (BinarySearchHelper.h,
lines 44–79): classic binary search with `int` bounds, returning the
found index or `-1`.  `mid = low + (high - low) / 2`; out-of-range
indexing (never reached: the loop keeps `0 ≤ low ≤ mid ≤ high < count`)
is modelled by `getD`'s default. -/
def bsearchGo (arr : List Entry_Handle_Table) (target : List Nat)
    (low high : Int) : Int :=
  if low ≤ high then
    if comparesHandles
        (arr.getD (low + (high - low) / 2).toNat default).handle target = 0 then
      low + (high - low) / 2
    else if comparesHandles
        (arr.getD (low + (high - low) / 2).toNat default).handle target < 0 then
      bsearchGo arr target (low + (high - low) / 2 + 1) high
    else
      bsearchGo arr target low (low + (high - low) / 2 - 1)
  else -1
termination_by (high + 1 - low).toNat
decreasing_by all_goals omega

/-- `BinarySearchHelper::binarySearch` with `low = 0`,
`high = count - 1`. -/
def binarySearch (arr : List Entry_Handle_Table) (target : List Nat) : Int :=
  bsearchGo arr target 0 ((arr.length : Int) - 1)

/-- Loop of `BinarySearchHelper::findInsertionIndex`
(BinarySearchHelper.h, lines 83–115): lower-bound search. -/
def fiiGo (arr : List Entry_Handle_Table) (target : List Nat)
    (low high : Nat) : Nat :=
  if low < high then
    if comparesHandles
        (arr.getD (low + (high - low) / 2) default).handle target < 0 then
      fiiGo arr target (low + (high - low) / 2 + 1) high
    else
      fiiGo arr target low (low + (high - low) / 2)
  else low
termination_by high - low
decreasing_by all_goals omega

/-- `BinarySearchHelper::findInsertionIndex` with `low = 0`,
`high = count`. -/
def findInsertionIndex (arr : List Entry_Handle_Table)
    (target : List Nat) : Nat :=
  fiiGo arr target 0 arr.length

/-- `Dynamic_Array::addElement` (Dynamic_Array.cpp, lines 104–143):
binary-search duplicate check, then (after growing the backing array if
needed) a shifting insertion at `findInsertionIndex`.  Returns the C
result (`1` success, `-1` duplicate) together with the new live
region. -/
def addElement (arr : List Entry_Handle_Table) (handle : List Nat)
    (newSocketNumber : Int) : Int × List Entry_Handle_Table :=
  if binarySearch arr handle ≠ -1 then (-1, arr)
  else
    (1, arr.take (findInsertionIndex arr handle)
        ++ ⟨newSocketNumber, handle⟩ :: arr.drop (findInsertionIndex arr handle))

/-- `Dynamic_Array::removeElement` (Dynamic_Array.cpp, lines 146–172):
the target is rebuilt from `strlen(handleName)` (hence `cstrOf`); a
found index is removed by shifting left and clearing the last slot. -/
def removeElement (arr : List Entry_Handle_Table)
    (handleName : List Nat) : List Entry_Handle_Table :=
  if binarySearch arr (cstrOf handleName) = -1 then arr
  else arr.eraseIdx (binarySearch arr (cstrOf handleName)).toNat

/-- `Dynamic_Array::removeElementBySocket` (Dynamic_Array.cpp, lines
175–200): linear scan for the first entry with the given socket; it is
removed by shifting left (`break` after the first hit). -/
def removeElementBySocket : List Entry_Handle_Table → Int
    → List Entry_Handle_Table
  | [], _ => []
  | e :: t, s =>
      if e.socketNumber = s then t else e :: removeElementBySocket t s

/-- `Dynamic_Array::getSocketForHandle` (Dynamic_Array.cpp, lines
204–223): the target is rebuilt from `strlen(handleName)`; binary
search, then the found entry's socket or `-1`. -/
def getSocketForHandle (arr : List Entry_Handle_Table)
    (handleName : List Nat) : Int :=
  if binarySearch arr (cstrOf handleName) ≠ -1 then
    (arr.getD (binarySearch arr (cstrOf handleName)).toNat default).socketNumber
  else -1

/-- The directory invariant the code maintains: live entries strictly
increasing under `comparesHandles`. -/
abbrev SortedTable (arr : List Entry_Handle_Table) : Prop :=
  arr.Pairwise (fun e1 e2 => comparesHandles e1.handle e2.handle < 0)

/-- All stored handles are NUL-free (handles are text; a NUL byte would
already confuse the code's own `strlen`-based target construction). -/
abbrev NulFreeTable (arr : List Entry_Handle_Table) : Prop :=
  ∀ e ∈ arr, (0 : Nat) ∉ e.handle

theorem cstrOf_eq_self {l : List Nat} (h : (0 : Nat) ∉ l) : cstrOf l = l := by
  unfold cstrOf
  induction l with
  | nil => rfl
  | cons a t ih =>
      have ha : a ≠ 0 := fun h0 => h (h0 ▸ List.mem_cons_self a t)
      have ht : (0 : Nat) ∉ t := fun hm => h (List.mem_cons_of_mem _ hm)
      simp only [List.takeWhile_cons]
      rw [if_pos (by simpa using ha), ih ht]

theorem nulFree_getD {arr : List Entry_Handle_Table} (hn : NulFreeTable arr)
    {j : Nat} (hj : j < arr.length) :
    (0 : Nat) ∉ (arr.getD j default).handle := by
  rw [List.getD_eq_getElem arr default hj]
  exact hn _ (List.getElem_mem hj)

theorem sortedTable_getElem {arr : List Entry_Handle_Table}
    (hs : SortedTable arr) {i j : Nat} (hi : i < arr.length)
    (hj : j < arr.length) (hij : i < j) :
    comparesHandles (arr.getD i default).handle
      (arr.getD j default).handle < 0 := by
  rw [List.getD_eq_getElem arr default hi, List.getD_eq_getElem arr default hj]
  exact List.pairwise_iff_getElem.mp hs i j hi hj hij

theorem comparesHandles_pos_trans {a b t : List Nat}
    (na : 0 ∉ a) (nb : 0 ∉ b) (nt : 0 ∉ t)
    (h1 : 0 < comparesHandles a t) (h2 : comparesHandles a b < 0) :
    0 < comparesHandles b t := by
  rw [comparesHandles_pos_iff nb nt]
  have e1 := (comparesHandles_pos_iff na nt).mp h1
  have e2 := (comparesHandles_neg_iff na nb).mp h2
  have e1' : lexCmp (caseFold t) (caseFold a) = -1 := by
    rw [lexCmp_swap]; omega
  have e3 := lexCmp_trans_neg _ _ _ e1' e2
  have := lexCmp_swap (caseFold t) (caseFold b)
  omega

/-- Full specification of the binary-search loop on a sorted, NUL-free
window. -/
theorem bsearchGo_spec (arr : List Entry_Handle_Table) (target : List Nat)
    (hs : SortedTable arr) (hn : NulFreeTable arr) (ht : (0 : Nat) ∉ target) :
    ∀ low high : Int, 0 ≤ low → high < (arr.length : Int) →
    (∀ j : Nat, j < arr.length → (j : Int) < low →
      comparesHandles (arr.getD j default).handle target < 0) →
    (∀ j : Nat, j < arr.length → high < (j : Int) →
      0 < comparesHandles (arr.getD j default).handle target) →
    ((bsearchGo arr target low high = -1
        ∧ ∀ e ∈ arr, caseFold e.handle ≠ caseFold target)
      ∨ (0 ≤ bsearchGo arr target low high
        ∧ (bsearchGo arr target low high).toNat < arr.length
        ∧ caseFold (arr.getD (bsearchGo arr target low high).toNat
            default).handle = caseFold target)) := by
  intro low high
  generalize hm : (high + 1 - low).toNat = n
  induction n using Nat.strong_induction_on generalizing low high with
  | _ n ih =>
    intro hl hh hlow hhigh
    rw [bsearchGo]
    by_cases hle : low ≤ high
    · rw [if_pos hle]
      have hmid0 : 0 ≤ low + (high - low) / 2 := by omega
      have hmid1 : low ≤ low + (high - low) / 2 := by omega
      have hmid2 : low + (high - low) / 2 ≤ high := by omega
      have hmlt : (low + (high - low) / 2).toNat < arr.length := by omega
      have hmn := nulFree_getD hn hmlt
      by_cases hc0 : comparesHandles
          (arr.getD (low + (high - low) / 2).toNat default).handle target = 0
      · rw [if_pos hc0]
        right
        exact ⟨hmid0, by omega,
          (comparesHandles_eq_zero_iff hmn ht).mp hc0⟩
      · rw [if_neg hc0]
        by_cases hclt : comparesHandles
            (arr.getD (low + (high - low) / 2).toNat default).handle target < 0
        · rw [if_pos hclt]
          refine ih (high + 1 - (low + (high - low) / 2 + 1)).toNat
            (by omega) _ _ rfl (by omega) hh ?_ hhigh
          intro j hj hjlt
          by_cases hjlow : (j : Int) < low
          · exact hlow j hj hjlow
          · by_cases hjeq : j = (low + (high - low) / 2).toNat
            · rw [hjeq]; exact hclt
            · have hjmid : j < (low + (high - low) / 2).toNat := by omega
              exact comparesHandles_trans_neg (nulFree_getD hn hj) hmn ht
                (sortedTable_getElem hs hj hmlt hjmid) hclt
        · rw [if_neg hclt]
          have hcgt : 0 < comparesHandles
              (arr.getD (low + (high - low) / 2).toNat default).handle target := by
            omega
          refine ih (low + (high - low) / 2 - 1 + 1 - low).toNat
            (by omega) _ _ rfl hl (by omega) hlow ?_
          intro j hj hjgt
          by_cases hjhigh : high < (j : Int)
          · exact hhigh j hj hjhigh
          · by_cases hjeq : j = (low + (high - low) / 2).toNat
            · rw [hjeq]; exact hcgt
            · have hjmid : (low + (high - low) / 2).toNat < j := by omega
              exact comparesHandles_pos_trans hmn (nulFree_getD hn hj) ht
                hcgt (sortedTable_getElem hs hmlt hj hjmid)
    · rw [if_neg hle]
      left
      refine ⟨rfl, ?_⟩
      intro e he heq
      rcases List.mem_iff_getElem.mp he with ⟨j, hj, hje⟩
      have hget : arr.getD j default = e := by
        rw [List.getD_eq_getElem arr default hj, hje]
      by_cases hjlow : (j : Int) < low
      · have hcmp := hlow j hj hjlow
        rw [hget] at hcmp
        have := (comparesHandles_eq_zero_iff (hn e he) ht).mpr heq
        omega
      · have hjhi : high < (j : Int) := by omega
        have hcmp := hhigh j hj hjhi
        rw [hget] at hcmp
        have := (comparesHandles_eq_zero_iff (hn e he) ht).mpr heq
        omega

/-- `binarySearch` returns `-1` exactly when no entry matches the
target case-insensitively. -/
theorem binarySearch_eq_neg_one_iff {arr : List Entry_Handle_Table}
    {target : List Nat} (hs : SortedTable arr) (hn : NulFreeTable arr)
    (ht : (0 : Nat) ∉ target) :
    binarySearch arr target = -1
      ↔ ∀ e ∈ arr, caseFold e.handle ≠ caseFold target := by
  have hspec := bsearchGo_spec arr target hs hn ht 0 ((arr.length : Int) - 1)
    (by omega) (by omega) (by intro j hj hjlt; omega)
    (by intro j hj hjgt; omega)
  unfold binarySearch
  rcases hspec with ⟨h1, h2⟩ | ⟨h1, h2, h3⟩
  · exact ⟨fun _ => h2, fun _ => h1⟩
  · constructor
    · intro h; omega
    · intro h
      exact absurd h3 (h _ (by
        rw [List.getD_eq_getElem arr default h2]
        exact List.getElem_mem h2))

/-- When `binarySearch` finds an index, that index is in range and the
entry there matches the target case-insensitively. -/
theorem binarySearch_found {arr : List Entry_Handle_Table}
    {target : List Nat} (hs : SortedTable arr) (hn : NulFreeTable arr)
    (ht : (0 : Nat) ∉ target) (hne : binarySearch arr target ≠ -1) :
    0 ≤ binarySearch arr target
    ∧ (binarySearch arr target).toNat < arr.length
    ∧ caseFold (arr.getD (binarySearch arr target).toNat default).handle
        = caseFold target := by
  have hspec := bsearchGo_spec arr target hs hn ht 0 ((arr.length : Int) - 1)
    (by omega) (by omega) (by intro j hj hjlt; omega)
    (by intro j hj hjgt; omega)
  unfold binarySearch
  rcases hspec with ⟨h1, _⟩ | h
  · exact absurd h1 hne
  · exact h

/-- In a sorted NUL-free table, two indices whose entries agree
case-insensitively are equal. -/
theorem sorted_key_inj {arr : List Entry_Handle_Table}
    (hs : SortedTable arr) (hn : NulFreeTable arr) {i j : Nat}
    (hi : i < arr.length) (hj : j < arr.length)
    (hij : caseFold (arr.getD i default).handle
      = caseFold (arr.getD j default).handle) : i = j := by
  by_contra hne
  rcases Nat.lt_or_ge i j with h | h
  · have hlt := sortedTable_getElem hs hi hj h
    have := (comparesHandles_eq_zero_iff (nulFree_getD hn hi)
      (nulFree_getD hn hj)).mpr hij
    omega
  · have hlt := sortedTable_getElem hs hj hi (by omega)
    have := (comparesHandles_eq_zero_iff (nulFree_getD hn hj)
      (nulFree_getD hn hi)).mpr hij.symm
    omega

/-- `getSocketForHandle` on a registered handle returns that entry's
socket. -/
theorem getSocketForHandle_eq_of_mem {arr : List Entry_Handle_Table}
    {e : Entry_Handle_Table} {name : List Nat}
    (hs : SortedTable arr) (hn : NulFreeTable arr)
    (he : e ∈ arr) (htn : (0 : Nat) ∉ name)
    (hk : caseFold e.handle = caseFold name) :
    getSocketForHandle arr name = e.socketNumber := by
  unfold getSocketForHandle
  rw [cstrOf_eq_self htn]
  have hne : binarySearch arr name ≠ -1 := by
    intro h
    exact (binarySearch_eq_neg_one_iff hs hn htn).mp h e he hk
  rw [if_pos hne]
  rcases binarySearch_found hs hn htn hne with ⟨h1, h2, h3⟩
  rcases List.mem_iff_getElem.mp he with ⟨j, hj, hje⟩
  have hget : arr.getD j default = e := by
    rw [List.getD_eq_getElem arr default hj, hje]
  have hij := sorted_key_inj hs hn h2 hj (by rw [hget, h3, hk])
  rw [hij, hget]

/-- `getSocketForHandle` returns `-1` exactly when no entry matches
case-insensitively (given that no live entry stores socket `-1`). -/
theorem getSocketForHandle_eq_neg_one_iff {arr : List Entry_Handle_Table}
    {name : List Nat} (hs : SortedTable arr) (hn : NulFreeTable arr)
    (htn : (0 : Nat) ∉ name)
    (hsock : ∀ e ∈ arr, e.socketNumber ≠ -1) :
    getSocketForHandle arr name = -1
      ↔ ∀ e ∈ arr, caseFold e.handle ≠ caseFold name := by
  unfold getSocketForHandle
  rw [cstrOf_eq_self htn]
  by_cases hne : binarySearch arr name ≠ -1
  · rw [if_pos hne]
    rcases binarySearch_found hs hn htn hne with ⟨h1, h2, h3⟩
    constructor
    · intro h
      exact absurd h (hsock _ (by
        rw [List.getD_eq_getElem arr default h2]
        exact List.getElem_mem h2))
    · intro h
      exact absurd h3 (h _ (by
        rw [List.getD_eq_getElem arr default h2]
        exact List.getElem_mem h2))
  · rw [if_neg hne]
    push_neg at hne
    simp only [true_iff]
    exact (binarySearch_eq_neg_one_iff hs hn htn).mp hne

theorem comparesHandles_neg_of_pos {a b : List Nat}
    (na : 0 ∉ a) (nb : 0 ∉ b) (h : 0 < comparesHandles a b) :
    comparesHandles b a < 0 := by
  rw [comparesHandles_neg_iff nb na]
  have h1 := (comparesHandles_pos_iff na nb).mp h
  have h2 := lexCmp_swap (caseFold a) (caseFold b)
  omega

/-- Full specification of the lower-bound loop on a sorted window. -/
theorem fiiGo_spec (arr : List Entry_Handle_Table) (target : List Nat)
    (hs : SortedTable arr) (hn : NulFreeTable arr) (ht : (0 : Nat) ∉ target) :
    ∀ low high : Nat, low ≤ high → high ≤ arr.length →
    (∀ j : Nat, j < arr.length → j < low →
      comparesHandles (arr.getD j default).handle target < 0) →
    (∀ j : Nat, j < arr.length → high ≤ j →
      ¬comparesHandles (arr.getD j default).handle target < 0) →
    (low ≤ fiiGo arr target low high ∧ fiiGo arr target low high ≤ high
      ∧ ∀ j : Nat, j < arr.length →
        (j < fiiGo arr target low high →
          comparesHandles (arr.getD j default).handle target < 0)
        ∧ (fiiGo arr target low high ≤ j →
          ¬comparesHandles (arr.getD j default).handle target < 0)) := by
  intro low high
  generalize hm : high - low = n
  induction n using Nat.strong_induction_on generalizing low high with
  | _ n ih =>
    intro hlh hh hlow hhigh
    rw [fiiGo]
    by_cases hlt : low < high
    · rw [if_pos hlt]
      have hmlt : low + (high - low) / 2 < arr.length := by omega
      have hmn := nulFree_getD hn hmlt
      by_cases hc : comparesHandles
          (arr.getD (low + (high - low) / 2) default).handle target < 0
      · rw [if_pos hc]
        have hlow' : ∀ j : Nat, j < arr.length →
            j < low + (high - low) / 2 + 1 →
            comparesHandles (arr.getD j default).handle target < 0 := by
          intro j hj hjlt
          by_cases hjlow : j < low
          · exact hlow j hj hjlow
          · by_cases hjeq : j = low + (high - low) / 2
            · rw [hjeq]; exact hc
            · have hjmid : j < low + (high - low) / 2 := by omega
              exact comparesHandles_trans_neg (nulFree_getD hn hj) hmn ht
                (sortedTable_getElem hs hj hmlt hjmid) hc
        obtain ⟨ha, hb, hcj⟩ := ih (high - (low + (high - low) / 2 + 1))
          (by omega) (low + (high - low) / 2 + 1) high rfl (by omega) hh
          hlow' hhigh
        exact ⟨by omega, hb, hcj⟩
      · rw [if_neg hc]
        have hhigh' : ∀ j : Nat, j < arr.length →
            low + (high - low) / 2 ≤ j →
            ¬comparesHandles (arr.getD j default).handle target < 0 := by
          intro j hj hjge
          by_cases hjeq : j = low + (high - low) / 2
          · rw [hjeq]; exact hc
          · have hjmid : low + (high - low) / 2 < j := by omega
            intro hcj
            exact hc (comparesHandles_trans_neg hmn (nulFree_getD hn hj) ht
              (sortedTable_getElem hs hmlt hj hjmid) hcj)
        obtain ⟨ha, hb, hcj⟩ := ih (low + (high - low) / 2 - low) (by omega)
          low (low + (high - low) / 2) rfl (by omega) (by omega) hlow hhigh'
        exact ⟨ha, by omega, hcj⟩
    · rw [if_neg hlt]
      have heq : low = high := by omega
      refine ⟨le_refl _, by omega, ?_⟩
      intro j hj
      exact ⟨fun hjlt => hlow j hj hjlt,
        fun hjge => hhigh j hj (by omega)⟩

/-- `findInsertionIndex` returns the lower-bound position of the target
in a sorted table. -/
theorem findInsertionIndex_spec {arr : List Entry_Handle_Table}
    {target : List Nat} (hs : SortedTable arr) (hn : NulFreeTable arr)
    (ht : (0 : Nat) ∉ target) :
    findInsertionIndex arr target ≤ arr.length
    ∧ ∀ j : Nat, j < arr.length →
      (j < findInsertionIndex arr target →
        comparesHandles (arr.getD j default).handle target < 0)
      ∧ (findInsertionIndex arr target ≤ j →
        ¬comparesHandles (arr.getD j default).handle target < 0) := by
  have h := fiiGo_spec arr target hs hn ht 0 arr.length (by omega)
    (le_refl _) (by intro j hj hjlt; omega) (by intro j hj hjge; omega)
  exact ⟨h.2.1, h.2.2⟩

theorem mem_take_getD {arr : List Entry_Handle_Table} {k : Nat}
    {e : Entry_Handle_Table} (he : e ∈ arr.take k) :
    ∃ j : Nat, j < arr.length ∧ j < k ∧ arr.getD j default = e := by
  rcases List.mem_iff_getElem.mp he with ⟨i, hi, hie⟩
  have hil : i < arr.length := by
    have := hi; simp only [List.length_take] at this; omega
  have hik : i < k := by
    have := hi; simp only [List.length_take] at this; omega
  refine ⟨i, hil, hik, ?_⟩
  rw [List.getD_eq_getElem arr default hil]
  simpa using hie

theorem mem_drop_getD {arr : List Entry_Handle_Table} {k : Nat}
    {e : Entry_Handle_Table} (he : e ∈ arr.drop k) :
    ∃ j : Nat, j < arr.length ∧ k ≤ j ∧ arr.getD j default = e := by
  rcases List.mem_iff_getElem.mp he with ⟨i, hi, hie⟩
  have hil : k + i < arr.length := by
    have := hi; simp only [List.length_drop] at this; omega
  refine ⟨k + i, hil, by omega, ?_⟩
  rw [List.getD_eq_getElem arr default hil]
  simpa using hie

/-- Inserting a fresh NUL-free handle keeps the table sorted and
NUL-free; a duplicate insert leaves it unchanged. -/
theorem addElement_invariant {arr : List Entry_Handle_Table}
    (hs : SortedTable arr) (hn : NulFreeTable arr)
    {h : List Nat} (hh : (0 : Nat) ∉ h) (sock : Int) :
    SortedTable (addElement arr h sock).2
    ∧ NulFreeTable (addElement arr h sock).2 := by
  unfold addElement
  by_cases hdup : binarySearch arr h ≠ -1
  · rw [if_pos hdup]; exact ⟨hs, hn⟩
  · rw [if_neg hdup]
    push_neg at hdup
    have hnomatch := (binarySearch_eq_neg_one_iff hs hn hh).mp hdup
    rcases findInsertionIndex_spec hs hn hh with ⟨hle, hsplit⟩
    have hbelow : ∀ e ∈ arr.take (findInsertionIndex arr h),
        comparesHandles e.handle h < 0 := by
      intro e he
      rcases mem_take_getD he with ⟨j, hjl, hjk, hje⟩
      rw [← hje]
      exact (hsplit j hjl).1 hjk
    have habove : ∀ e ∈ arr.drop (findInsertionIndex arr h),
        comparesHandles h e.handle < 0 := by
      intro e he
      rcases mem_drop_getD he with ⟨j, hjl, hjk, hje⟩
      have hnotlt := (hsplit j hjl).2 hjk
      have hnoteq : comparesHandles (arr.getD j default).handle h ≠ 0 := by
        intro h0
        have hmem : arr.getD j default ∈ arr := by
          rw [List.getD_eq_getElem arr default hjl]
          exact List.getElem_mem hjl
        exact hnomatch _ hmem
          ((comparesHandles_eq_zero_iff (nulFree_getD hn hjl) hh).mp h0)
      have hpos : 0 < comparesHandles (arr.getD j default).handle h := by
        omega
      rw [← hje]
      exact comparesHandles_neg_of_pos (nulFree_getD hn hjl) hh hpos
    constructor
    · unfold SortedTable
      rw [List.pairwise_append]
      refine ⟨hs.sublist (List.take_sublist _ _), ?_, ?_⟩
      · rw [List.pairwise_cons]
        exact ⟨fun b hb => habove b hb, hs.sublist (List.drop_sublist _ _)⟩
      · intro a ha b hb
        rcases List.mem_cons.mp hb with rfl | hb'
        · exact hbelow a ha
        · rcases mem_take_getD ha with ⟨i, hil, hik, hie⟩
          rcases mem_drop_getD hb' with ⟨j, hjl, hjk, hje⟩
          rw [← hie, ← hje]
          exact sortedTable_getElem hs hil hjl (by omega)
    · intro e he
      rcases List.mem_append.mp he with h1 | h1
      · exact hn e ((List.take_sublist _ _).mem h1)
      · rcases List.mem_cons.mp h1 with rfl | h2
        · exact hh
        · exact hn e ((List.drop_sublist _ _).mem h2)

theorem removeElementBySocket_sublist :
    ∀ (arr : List Entry_Handle_Table) (s : Int),
      (removeElementBySocket arr s).Sublist arr
  | [], _ => List.Sublist.refl _
  | e :: t, s => by
    unfold removeElementBySocket
    by_cases hc : e.socketNumber = s
    · rw [if_pos hc]; exact List.sublist_cons_self _ _
    · rw [if_neg hc]
      exact List.Sublist.cons₂ _ (removeElementBySocket_sublist t s)

theorem removeElement_sublist (arr : List Entry_Handle_Table)
    (nm : List Nat) : (removeElement arr nm).Sublist arr := by
  unfold removeElement
  by_cases hc : binarySearch arr (cstrOf nm) = -1
  · rw [if_pos hc]
  · rw [if_neg hc]; exact List.eraseIdx_sublist _ _

/-! ## C6: duplicate insert fails without mutation -/

/-- C6.  Inserting a handle that is already present (byte-for-byte, as
one of the live entries) fails with the duplicate result `-1` and
returns the directory unchanged: no entry is added, removed, reordered,
and the existing entry keeps its connection id. -/
theorem addElement_duplicate_unchanged (arr : List Entry_Handle_Table)
    (hdl : List Nat) (sock : Int)
    (hs : SortedTable arr) (hn : NulFreeTable arr)
    (hmem : ∃ e ∈ arr, e.handle = hdl) :
    addElement arr hdl sock = (-1, arr) := by
  rcases hmem with ⟨e, he, hhdl⟩
  have hh : (0 : Nat) ∉ hdl := hhdl ▸ hn e he
  have hne : binarySearch arr hdl ≠ -1 := by
    intro hb
    exact (binarySearch_eq_neg_one_iff hs hn hh).mp hb e he (by rw [hhdl])
  unfold addElement
  rw [if_pos hne]

/-- Witness for C6: inserting `"bob"` again into a directory holding
`{alice ↦ 4, bob ↦ 7}`. -/
theorem addElement_duplicate_unchanged_witness :
    addElement [⟨4, [97, 108, 105, 99, 101]⟩, ⟨7, [98, 111, 98]⟩]
      [98, 111, 98] 9
      = (-1, [⟨4, [97, 108, 105, 99, 101]⟩, ⟨7, [98, 111, 98]⟩]) :=
  addElement_duplicate_unchanged _ _ 9 (by decide) (by decide)
    ⟨⟨7, [98, 111, 98]⟩, by decide, rfl⟩

/-! ## C7: the directory stays sorted under every operation sequence -/

/-- The three mutating directory operations the server performs
(`addElement` from registration, `removeElement`,
`removeElementBySocket` from cleanup/exit). -/
inductive DirOp
  | insert (handle : List Nat) (socketNumber : Int)
  | removeByHandle (handleName : List Nat)
  | removeBySocket (socketNumber : Int)
deriving DecidableEq, Repr

def applyOp (arr : List Entry_Handle_Table) : DirOp → List Entry_Handle_Table
  | .insert h s => (addElement arr h s).2
  | .removeByHandle nm => removeElement arr nm
  | .removeBySocket s => removeElementBySocket arr s

def applyOps (arr : List Entry_Handle_Table) (ops : List DirOp) :
    List Entry_Handle_Table :=
  ops.foldl applyOp arr

/-- Well-formed operation: inserted handles are NUL-free text (the
server only inserts registration handles). -/
def WfOp : DirOp → Prop
  | .insert h _ => (0 : Nat) ∉ h
  | .removeByHandle _ => True
  | .removeBySocket _ => True

instance : DecidablePred WfOp := fun op =>
  match op with
  | .insert h _ => inferInstanceAs (Decidable ((0 : Nat) ∉ h))
  | .removeByHandle _ => inferInstanceAs (Decidable True)
  | .removeBySocket _ => inferInstanceAs (Decidable True)

theorem applyOp_invariant {arr : List Entry_Handle_Table}
    (hs : SortedTable arr) (hn : NulFreeTable arr) {op : DirOp}
    (hwf : WfOp op) :
    SortedTable (applyOp arr op) ∧ NulFreeTable (applyOp arr op) := by
  cases op with
  | insert h s => exact addElement_invariant hs hn hwf s
  | removeByHandle nm =>
      have hsub := removeElement_sublist arr nm
      exact ⟨hs.sublist hsub, fun e he => hn e (hsub.mem he)⟩
  | removeBySocket s =>
      have hsub := removeElementBySocket_sublist arr s
      exact ⟨hs.sublist hsub, fun e he => hn e (hsub.mem he)⟩

theorem applyOps_invariant : ∀ (ops : List DirOp)
    (arr : List Entry_Handle_Table), SortedTable arr → NulFreeTable arr →
    (∀ op ∈ ops, WfOp op) →
    SortedTable (applyOps arr ops) ∧ NulFreeTable (applyOps arr ops)
  | [], arr => by intro hs hn _; exact ⟨hs, hn⟩
  | op :: ops, arr => by
    intro hs hn hwf
    have h1 := applyOp_invariant hs hn (hwf op (List.mem_cons_self _ _))
    exact applyOps_invariant ops (applyOp arr op) h1.1 h1.2
      (fun o ho => hwf o (List.mem_cons_of_mem _ ho))

/-- Two sorted NUL-free tables holding the same entries are identical:
the fixed ordering determines the enumeration order. -/
theorem sortedTable_perm_eq : ∀ l1 l2 : List Entry_Handle_Table,
    SortedTable l1 → SortedTable l2 → NulFreeTable l1 → NulFreeTable l2 →
    l1.Perm l2 → l1 = l2
  | [], l2 => by
    intro _ _ _ _ hp
    exact hp.nil_eq
  | a :: t1, l2 => by
    intro hs1 hs2 hn1 hn2 hp
    rcases l2 with _ | ⟨b, t2⟩
    · exact absurd hp.eq_nil (by simp)
    · by_cases hab : a = b
      · subst hab
        have hrest := sortedTable_perm_eq t1 t2
          (List.Pairwise.of_cons hs1) (List.Pairwise.of_cons hs2)
          (fun e he => hn1 e (List.mem_cons_of_mem _ he))
          (fun e he => hn2 e (List.mem_cons_of_mem _ he))
          hp.cons_inv
        rw [hrest]
      · exfalso
        have hbmem : b ∈ a :: t1 := hp.mem_iff.mpr (List.mem_cons_self _ _)
        have hamem : a ∈ b :: t2 := hp.mem_iff.mp (List.mem_cons_self _ _)
        have hbt1 : b ∈ t1 := by
          rcases List.mem_cons.mp hbmem with h | h
          · exact absurd h.symm hab
          · exact h
        have hat2 : a ∈ t2 := by
          rcases List.mem_cons.mp hamem with h | h
          · exact absurd h hab
          · exact h
        have h1 : comparesHandles a.handle b.handle < 0 :=
          (List.pairwise_cons.mp hs1).1 b hbt1
        have h2 : comparesHandles b.handle a.handle < 0 :=
          (List.pairwise_cons.mp hs2).1 a hat2
        exact comparesHandles_asymm (hn1 a (List.mem_cons_self _ _))
          (hn2 b (List.mem_cons_self _ _)) h1 h2

/-- C7.  After every sequence of well-formed insert and remove
operations starting from the empty directory, the live entries are
sorted (strictly increasing under `comparesHandles`, hence enumeration
— used for broadcast fan-out and list responses — is in that order),
and the resulting table is determined by its set of entries alone:
any other operation sequence producing the same entries in any order
produces the identical table. -/
theorem directory_sorted_deterministic (ops : List DirOp)
    (hwf : ∀ op ∈ ops, WfOp op) :
    SortedTable (applyOps [] ops) ∧ NulFreeTable (applyOps [] ops)
    ∧ ∀ ops' : List DirOp, (∀ op ∈ ops', WfOp op) →
        (applyOps [] ops).Perm (applyOps [] ops') →
        applyOps [] ops = applyOps [] ops' := by
  have h1 := applyOps_invariant ops [] (List.Pairwise.nil)
    (fun e he => absurd he (List.not_mem_nil e)) hwf
  refine ⟨h1.1, h1.2, ?_⟩
  intro ops' hwf' hperm
  have h2 := applyOps_invariant ops' [] (List.Pairwise.nil)
    (fun e he => absurd he (List.not_mem_nil e)) hwf'
  exact sortedTable_perm_eq _ _ h1.1 h2.1 h1.2 h2.2 hperm

/-- Witness for C7: the insertion order `"b"` then `"a"`. -/
theorem directory_sorted_deterministic_witness :
    SortedTable (applyOps [] [DirOp.insert [98] 1, DirOp.insert [97] 2])
    ∧ NulFreeTable (applyOps [] [DirOp.insert [98] 1, DirOp.insert [97] 2])
    ∧ ∀ ops' : List DirOp, (∀ op ∈ ops', WfOp op) →
        (applyOps [] [DirOp.insert [98] 1, DirOp.insert [97] 2]).Perm
          (applyOps [] ops') →
        applyOps [] [DirOp.insert [98] 1, DirOp.insert [97] 2]
          = applyOps [] ops' :=
  directory_sorted_deterministic _ (by decide)

/-! ## The router (`server.cpp`) -/

/-- One outbound PDU emitted by the server (socket, flag, payload) —
every emission goes through `safeSend`/`sendBuf`. -/
structure Send where
  socket : Int
  flag : Nat
  payload : List Nat
deriving DecidableEq, Repr

/-- `sendErrorForInvalidHandle` (server.cpp, lines 472–480): error PDU
with flag 7 to the sender, payload = `strlen`-length-prefixed offending
handle. -/
def sendErrorForInvalidHandle (senderSocket : Int)
    (destHandle : List Nat) : Send :=
  ⟨senderSocket, 7, (cstrOf destHandle).length :: cstrOf destHandle⟩

/-- `parseSenderAndDestinations` (server.cpp, lines 367–391): returns
(sender bytes, destination count, offset after the count byte), or
`none` on the checks that make the handler return early. -/
def parseSenderAndDestinations (payload : List Nat) :
    Option (List Nat × Nat × Nat) :=
  if payload.length < 1 then none
  else if payload.length < 1 + payload.getD 0 0 + 1 then none
  else if 101 ≤ payload.getD 0 0 then none
  else some ((payload.drop 1).take (payload.getD 0 0),
    payload.getD (1 + payload.getD 0 0) 0,
    1 + payload.getD 0 0 + 1)

/-- `getNextDestinationHandle` (server.cpp, lines 401–424): reads one
length-prefixed destination handle at `offset`; fails when truncated
before the length byte, when the declared length runs past the payload,
or when the declared length reaches `maxDestSize = MaxNameLen + 1 =
101`. -/
def getNextDestinationHandle (payload : List Nat) (offset : Nat) :
    Option (List Nat × Nat) :=
  if payload.length ≤ offset then none
  else if payload.length < offset + 1 + payload.getD offset 0 then none
  else if 101 ≤ payload.getD offset 0 then none
  else some ((payload.drop (offset + 1)).take (payload.getD offset 0),
    offset + 1 + payload.getD offset 0)

/-- The destination loop of `forwardDirectMessage` (server.cpp, lines
442–458): for each of the `numDest` destinations, parse (early return
on failure), look up, and either send an error PDU to the sender or
forward the entire payload with flag `MESSAGE_PACKET = 5`. -/
def processDests (arr : List Entry_Handle_Table) (senderSocket : Int)
    (payload : List Nat) (offset : Nat) : Nat → List Send
  | 0 => []
  | n + 1 =>
      match getNextDestinationHandle payload offset with
      | none => []
      | some (dest, offset') =>
          (if getSocketForHandle arr dest = -1 then
            sendErrorForInvalidHandle senderSocket dest
          else
            ⟨getSocketForHandle arr dest, 5, payload⟩)
          :: processDests arr senderSocket payload offset' n

/-- `forwardDirectMessage` (server.cpp, lines 427–459). -/
def forwardDirectMessage (arr : List Entry_Handle_Table)
    (senderSocket : Int) (payload : List Nat) : List Send :=
  match parseSenderAndDestinations payload with
  | none => []
  | some (_, numDest, offset) =>
      processDests arr senderSocket payload offset numDest

/-- The fan-out loop of `forwardBroadcast` (server.cpp, lines 345–354):
skip empty slots and the sender, forward the identical payload with
flag `BROADCAST_PACKET = 4`. -/
def broadcastLoop (senderSocket : Int) (payload : List Nat) :
    List Entry_Handle_Table → List Send
  | [] => []
  | e :: t =>
      if e.handle.length ≠ 0 ∧ e.socketNumber ≠ senderSocket then
        ⟨e.socketNumber, 4, payload⟩ :: broadcastLoop senderSocket payload t
      else broadcastLoop senderSocket payload t

/-- `forwardBroadcast` (server.cpp, lines 328–356). -/
def forwardBroadcast (arr : List Entry_Handle_Table)
    (senderSocket : Int) (payload : List Nat) : List Send :=
  if payload.length < 1 then []
  else if payload.length < 1 + payload.getD 0 0 then []
  else broadcastLoop senderSocket payload arr

/-- Result of one server handler invocation: the PDUs it sent, the new
directory, and whether it closed the handled connection. -/
structure ServerReaction where
  sends : List Send
  table : List Entry_Handle_Table
  closedConn : Bool
deriving DecidableEq, Repr

/-- `processClientExit` (server.cpp, lines 462–469): exit ACK (flag 9),
then remove by socket and close. -/
def processClientExit (arr : List Entry_Handle_Table)
    (clientSocket : Int) : ServerReaction :=
  ⟨[⟨clientSocket, 9, []⟩], removeElementBySocket arr clientSocket, true⟩

/-- 32-bit big-endian encoding (`htonl`). -/
def be32 (n : Nat) : List Nat :=
  [n / 16777216 % 256, n / 65536 % 256, n / 256 % 256, n % 256]

/-- The per-handle loop of `processListRequest` (server.cpp, lines
584–601): one flag-`0x0C` PDU per live entry. -/
def listEntriesLoop (clientSocket : Int) :
    List Entry_Handle_Table → List Send
  | [] => []
  | e :: t =>
      if e.handle.length ≠ 0 then
        ⟨clientSocket, 12, e.handle.length :: e.handle⟩
          :: listEntriesLoop clientSocket t
      else listEntriesLoop clientSocket t

/-- `processListRequest` (server.cpp, lines 575–614): count PDU (flag
`0x0B`, 4-byte network-order count), one PDU per handle, end marker
(flag `0x0D`). -/
def processListRequest (arr : List Entry_Handle_Table)
    (clientSocket : Int) : ServerReaction :=
  ⟨⟨clientSocket, 11, be32 arr.length⟩
      :: (listEntriesLoop clientSocket arr ++ [⟨clientSocket, 13, []⟩]),
    arr, false⟩

/-- `dispatchPacket` (server.cpp, lines 269–293): dispatch on the flag;
unknown flags are logged and ignored. -/
def dispatchPacket (arr : List Entry_Handle_Table) (clientSocket : Int)
    (flag : Nat) (payload : List Nat) : ServerReaction :=
  if flag = 4 then ⟨forwardBroadcast arr clientSocket payload, arr, false⟩
  else if flag = 5 then
    ⟨forwardDirectMessage arr clientSocket payload, arr, false⟩
  else if flag = 8 then processClientExit arr clientSocket
  else if flag = 10 then processListRequest arr clientSocket
  else ⟨[], arr, false⟩

/-- Outcome of one `processClientPacket` call: either the whole router
process exits (inside `recvBuf`) or the handler reacts. -/
inductive ServerStep
  | exitProcess
  | react (r : ServerReaction)
deriving DecidableEq, Repr

/-- `processClientPacket` (server.cpp, lines 297–325): receive one PDU;
`-1` (other than `VALID_ZERO_PAYLOAD`) means the client terminated and
only that client is cleaned up (`cleanupClient`: remove its directory
entry by socket, unwatch, close); `VALID_ZERO_PAYLOAD` dispatches with
an empty payload. -/
def processClientPacket (arr : List Entry_Handle_Table)
    (clientSocket : Int) (hdr pl : NetRead) : ServerStep :=
  match recvBuf hdr pl with
  | .exitProcess => .exitProcess
  | .connClosed =>
      .react ⟨[], removeElementBySocket arr clientSocket, true⟩
  | .validZeroPayload flag =>
      .react (dispatchPacket arr clientSocket flag [])
  | .pkt flag payload =>
      .react (dispatchPacket arr clientSocket flag payload)

/-- The registration validation of `processNewClient` (server.cpp,
lines 210–265) once a packet has been received: length/flag check
(cleanup without an error PDU), handle-length check and duplicate check
(`ERROR_ON_INIT_PACKET = 3`, then cleanup), then `addElement` and the
confirmation (`CONFIRM_GOOD_HANDLE = 2`). -/
def processRegistration (arr : List Entry_Handle_Table)
    (clientSocket : Int) (flag : Nat) (payload : List Nat) : ServerReaction :=
  if payload.length < 1 ∨ flag ≠ 1 then
    ⟨[], removeElementBySocket arr clientSocket, true⟩
  else if payload.getD 0 0 = 0 ∨ 100 < payload.getD 0 0
      ∨ payload.length < 1 + payload.getD 0 0 then
    ⟨[⟨clientSocket, 3, []⟩], removeElementBySocket arr clientSocket, true⟩
  else if getSocketForHandle arr ((payload.drop 1).take (payload.getD 0 0))
      ≠ -1 then
    ⟨[⟨clientSocket, 3, []⟩], removeElementBySocket arr clientSocket, true⟩
  else if (addElement arr ((payload.drop 1).take (payload.getD 0 0))
      clientSocket).1 < 0 then
    ⟨[⟨clientSocket, 3, []⟩], removeElementBySocket arr clientSocket, true⟩
  else
    ⟨[⟨clientSocket, 2, []⟩],
      (addElement arr ((payload.drop 1).take (payload.getD 0 0))
        clientSocket).2, false⟩

/-! ## C2: transport errors -/

theorem removeElementBySocket_mem_of_ne :
    ∀ (arr : List Entry_Handle_Table) (s : Int) (e : Entry_Handle_Table),
      e ∈ arr → e.socketNumber ≠ s → e ∈ removeElementBySocket arr s
  | [], _, _ => by intro h _; exact absurd h (List.not_mem_nil _)
  | a :: t, s, e => by
    intro he hne
    unfold removeElementBySocket
    by_cases hc : a.socketNumber = s
    · rw [if_pos hc]
      rcases List.mem_cons.mp he with rfl | h
      · exact absurd hc hne
      · exact h
    · rw [if_neg hc]
      rcases List.mem_cons.mp he with rfl | h
      · exact List.mem_cons_self _ _
      · exact List.mem_cons_of_mem _
          (removeElementBySocket_mem_of_ne t s e h hne)

/-- C2 counterexample.  An I/O error on the header `recv` for one
client makes `recvBuf` call `exit(EXIT_FAILURE)`: the whole router
process terminates, contradicting the claim that an I/O error while
receiving from one client never terminates the router. -/
theorem processClientPacket_ioError_cex :
    processClientPacket [] 4 NetRead.ioError NetRead.ioError
      = ServerStep.exitProcess := rfl

/-- C2 amended.  On an *orderly close* (recv returning 0, before or
inside a frame), only the owning connection is affected: the handler
sends nothing, closes that connection and removes exactly its directory
entry (the result is a sublist of the old table in which every entry
with a different socket survives), and the router loop continues.  An
*I/O failure* (recv or send returning an error, and also a `send`
returning 0), however, terminates the entire router process via
`exit(EXIT_FAILURE)`. -/
theorem transport_error_handling (arr : List Entry_Handle_Table)
    (sock : Int) (pl : NetRead) (hb : List Nat) (len : Nat) (r : Int)
    (rs : List Int) (hlen : len ≤ 65532) (hr : r < 0)
    (hhdr : hb.getD 0 0 * 256 + hb.getD 1 0 ≠ 3) :
    processClientPacket arr sock NetRead.closed pl
      = ServerStep.react ⟨[], removeElementBySocket arr sock, true⟩
    ∧ processClientPacket arr sock (NetRead.bytes hb) NetRead.closed
      = ServerStep.react ⟨[], removeElementBySocket arr sock, true⟩
    ∧ (removeElementBySocket arr sock).Sublist arr
    ∧ (∀ e ∈ arr, e.socketNumber ≠ sock → e ∈ removeElementBySocket arr sock)
    ∧ processClientPacket arr sock NetRead.ioError pl
      = ServerStep.exitProcess
    ∧ sendBufNet len (r :: rs) = SendOutcome.exitProcess := by
  refine ⟨rfl, ?_, removeElementBySocket_sublist arr sock,
    fun e he hne => removeElementBySocket_mem_of_ne arr sock e he hne,
    rfl, ?_⟩
  · have hrecv : recvBuf (NetRead.bytes hb) NetRead.closed
        = RecvOutcome.connClosed := by
      show (if ((hb.getD 0 0 * 256 + hb.getD 1 0 : Nat) : Int) - 3 = 0 then
          RecvOutcome.validZeroPayload (hb.getD 2 0)
        else RecvOutcome.connClosed) = RecvOutcome.connClosed
      rw [if_neg (by push_cast; omega :
        ¬((hb.getD 0 0 * 256 + hb.getD 1 0 : Nat) : Int) - 3 = 0)]
    unfold processClientPacket
    rw [hrecv]
  · unfold sendBufNet sendLoop
    rw [Nat.mod_eq_of_lt (by omega : len + 3 < 65536),
      if_pos (by omega : 0 < len + 3), if_pos hr]

/-- Witness for the amended C2 at concrete inputs. -/
theorem transport_error_handling_witness :
    processClientPacket [⟨7, [97]⟩] 7 NetRead.closed NetRead.closed
      = ServerStep.react ⟨[], removeElementBySocket [⟨7, [97]⟩] 7, true⟩
    ∧ processClientPacket [⟨7, [97]⟩] 7 (NetRead.bytes [0, 10, 4])
        NetRead.closed
      = ServerStep.react ⟨[], removeElementBySocket [⟨7, [97]⟩] 7, true⟩
    ∧ (removeElementBySocket [⟨7, [97]⟩] 7).Sublist [⟨7, [97]⟩]
    ∧ (∀ e ∈ [(⟨7, [97]⟩ : Entry_Handle_Table)], e.socketNumber ≠ 7 →
        e ∈ removeElementBySocket [⟨7, [97]⟩] 7)
    ∧ processClientPacket [⟨7, [97]⟩] 7 NetRead.ioError NetRead.closed
      = ServerStep.exitProcess
    ∧ sendBufNet 5 (-1 :: []) = SendOutcome.exitProcess :=
  transport_error_handling [⟨7, [97]⟩] 7 NetRead.closed [0, 10, 4] 5
    (-1) [] (by decide) (by decide) (by decide)

/-! ## C5: broadcast fan-out -/

theorem broadcastLoop_eq_filter_map (senderSocket : Int)
    (payload : List Nat) :
    ∀ arr : List Entry_Handle_Table, (∀ e ∈ arr, e.handle ≠ []) →
    broadcastLoop senderSocket payload arr
      = (arr.filter (fun e => decide (e.socketNumber ≠ senderSocket))).map
          (fun e => ⟨e.socketNumber, 4, payload⟩)
  | [] => by intro _; rfl
  | e :: t => by
    intro hh
    have hhe : e.handle ≠ [] := hh e (List.mem_cons_self _ _)
    have hht : ∀ x ∈ t, x.handle ≠ [] :=
      fun x hx => hh x (List.mem_cons_of_mem _ hx)
    have hlen : e.handle.length ≠ 0 := by
      intro h0; exact hhe (List.eq_nil_of_length_eq_zero h0)
    unfold broadcastLoop
    by_cases hc : e.socketNumber = senderSocket
    · rw [if_neg (by simp [hc])]
      rw [broadcastLoop_eq_filter_map senderSocket payload t hht]
      rw [List.filter_cons_of_neg (by simp [hc])]
    · rw [if_pos ⟨hlen, hc⟩]
      rw [broadcastLoop_eq_filter_map senderSocket payload t hht]
      rw [List.filter_cons_of_pos (by simp [hc])]
      rfl

theorem countP_ne_add_countP_eq (arr : List Entry_Handle_Table) (s : Int) :
    arr.countP (fun e => decide (e.socketNumber ≠ s))
      + arr.countP (fun e => decide (e.socketNumber = s)) = arr.length := by
  induction arr with
  | nil => rfl
  | cons a t ih =>
      simp only [List.countP_cons, List.length_cons]
      simp only [decide_not] at ih ⊢
      by_cases hc : a.socketNumber = s <;> simp [hc] <;> omega

/-- C5.  A broadcast from a registered sender in a directory of `N`
live entries (sender included, all entries with nonempty handles and
distinct sockets in the sense that exactly one entry holds the sender's
socket) is forwarded — identical payload, type `BROADCAST_PACKET = 4` —
to exactly the `N − 1` entries whose connection is not the sender, and
no copy goes back to the sender. -/
theorem forwardBroadcast_spec (arr : List Entry_Handle_Table)
    (senderSocket : Int) (payload : List Nat)
    (hne : payload ≠ [])
    (hwf : 1 + payload.getD 0 0 ≤ payload.length)
    (hh : ∀ e ∈ arr, e.handle ≠ [])
    (hone : arr.countP (fun e => decide (e.socketNumber = senderSocket))
      = 1) :
    (forwardBroadcast arr senderSocket payload).length = arr.length - 1
    ∧ ∀ s ∈ forwardBroadcast arr senderSocket payload,
        s.socket ≠ senderSocket ∧ s.flag = 4 ∧ s.payload = payload := by
  have h1 : ¬payload.length < 1 := by
    rcases payload with _ | ⟨b, bs⟩
    · exact absurd rfl hne
    · simp
  unfold forwardBroadcast
  rw [if_neg h1, if_neg (by omega)]
  rw [broadcastLoop_eq_filter_map senderSocket payload arr hh]
  constructor
  · rw [List.length_map, ← List.countP_eq_length_filter]
    have hsum := countP_ne_add_countP_eq arr senderSocket
    omega
  · intro s hs
    rcases List.mem_map.mp hs with ⟨e, hef, rfl⟩
    have := List.of_mem_filter hef
    simp only [decide_eq_true_eq] at this
    exact ⟨this, rfl, rfl⟩

/-- Witness for C5: a three-entry directory, sender on socket 2. -/
theorem forwardBroadcast_spec_witness :
    (forwardBroadcast [⟨1, [97]⟩, ⟨2, [98]⟩, ⟨3, [99]⟩] 2 [1, 98]).length
      = ([⟨1, [97]⟩, ⟨2, [98]⟩, ⟨3, [99]⟩] :
          List Entry_Handle_Table).length - 1
    ∧ ∀ s ∈ forwardBroadcast [⟨1, [97]⟩, ⟨2, [98]⟩, ⟨3, [99]⟩] 2 [1, 98],
        s.socket ≠ 2 ∧ s.flag = 4 ∧ s.payload = [1, 98] :=
  forwardBroadcast_spec _ 2 [1, 98] (by decide) (by decide) (by decide)
    (by decide)

/-! ## Direct-message payload encoding

The wire format of a DirectMessage payload (spec §6 and
`cclient.cpp`, lines 691–706, which build exactly this header):
`[1-byte sender length][sender][1-byte count]([1-byte dest length]
[dest])*[text]`. -/

def encodeDests (dests : List (List Nat)) : List Nat :=
  dests.flatMap (fun d => d.length :: d)

theorem getD_append_cons (pre : List Nat) (x : Nat) (rest : List Nat) :
    (pre ++ x :: rest).getD pre.length 0 = x := by
  induction pre with
  | nil => rfl
  | cons a t ih =>
      simp only [List.cons_append, List.getD_cons_succ, List.length_cons]
      exact ih

theorem drop_append_cons (pre : List Nat) (x : Nat) (rest : List Nat) :
    (pre ++ x :: rest).drop (pre.length + 1) = rest := by
  induction pre with
  | nil => rfl
  | cons a t ih =>
      simp only [List.cons_append, List.drop_succ_cons, List.length_cons]
      exact ih

theorem take_append_self (d post : List Nat) : (d ++ post).take d.length = d := by
  induction d with
  | nil => rfl
  | cons a t ih =>
      simp only [List.cons_append, List.take_succ_cons, List.length_cons]
      rw [ih]

/-- Reading one encoded destination field succeeds and consumes exactly
its bytes. -/
theorem getNextDestinationHandle_encoded (pre d post : List Nat)
    (hd : d.length ≤ 100) :
    getNextDestinationHandle (pre ++ (d.length :: d) ++ post) pre.length
      = some (d, pre.length + 1 + d.length) := by
  have hshape : pre ++ (d.length :: d) ++ post
      = pre ++ d.length :: (d ++ post) := by simp
  rw [hshape]
  have hlen : (pre ++ d.length :: (d ++ post)).length
      = pre.length + 1 + d.length + post.length := by
    simp only [List.length_append, List.length_cons, List.length_nil]; omega
  unfold getNextDestinationHandle
  rw [getD_append_cons pre d.length (d ++ post)]
  rw [if_neg (by omega), if_neg (by omega), if_neg (by omega)]
  rw [drop_append_cons pre d.length (d ++ post), take_append_self]

/-- Parsing the sender and the destination count of a well-formed
payload. -/
theorem parseSenderAndDestinations_encoded (sender : List Nat) (n : Nat)
    (rest : List Nat) (hsl : sender.length ≤ 100) :
    parseSenderAndDestinations ([sender.length] ++ sender ++ [n] ++ rest)
      = some (sender, n, 1 + sender.length + 1) := by
  have hshape : [sender.length] ++ sender ++ [n] ++ rest
      = sender.length :: (sender ++ n :: rest) := by simp
  rw [hshape]
  have hlen : (sender.length :: (sender ++ n :: rest)).length
      = 1 + sender.length + 1 + rest.length := by
    simp only [List.length_append, List.length_cons, List.length_nil]; omega
  have hgd0 : (sender.length :: (sender ++ n :: rest)).getD 0 0
      = sender.length := rfl
  have hgdn : (sender.length :: (sender ++ n :: rest)).getD
      (1 + sender.length) 0 = n := by
    have : sender.length :: (sender ++ n :: rest)
        = (sender.length :: sender) ++ n :: rest := by simp
    rw [this]
    have hl : (1 + sender.length) = (sender.length :: sender).length := by
      simp only [List.length_cons]; omega
    rw [hl]
    exact getD_append_cons _ n rest
  unfold parseSenderAndDestinations
  rw [hgd0]
  rw [if_neg (by omega), if_neg (by omega), if_neg (by omega)]
  rw [hgdn]
  have hdrop : (sender.length :: (sender ++ n :: rest)).drop 1
      = sender ++ n :: rest := rfl
  rw [hdrop, take_append_self]

theorem processDests_zero (arr : List Entry_Handle_Table) (sock : Int)
    (payload : List Nat) (offset : Nat) :
    processDests arr sock payload offset 0 = [] := rfl

theorem processDests_succ_some (arr : List Entry_Handle_Table) (sock : Int)
    (payload : List Nat) (offset n : Nat) (dest : List Nat) (offset' : Nat)
    (h : getNextDestinationHandle payload offset = some (dest, offset')) :
    processDests arr sock payload offset (n + 1)
      = (if getSocketForHandle arr dest = -1 then
          sendErrorForInvalidHandle sock dest
        else ⟨getSocketForHandle arr dest, 5, payload⟩)
        :: processDests arr sock payload offset' n := by
  rw [processDests, h]

theorem processDests_succ_none (arr : List Entry_Handle_Table) (sock : Int)
    (payload : List Nat) (offset n : Nat)
    (h : getNextDestinationHandle payload offset = none) :
    processDests arr sock payload offset (n + 1) = [] := by
  rw [processDests, h]

/-- Splitting the destination loop over an encoded run of well-formed
destination fields: the loop processes them in order and then continues
at the position right after them. -/
theorem processDests_encoded (arr : List Entry_Handle_Table) (sock : Int)
    (payload : List Nat) :
    ∀ (ds : List (List Nat)) (pre post : List Nat) (m : Nat),
    payload = pre ++ encodeDests ds ++ post →
    (∀ d ∈ ds, d.length ≤ 100) →
    processDests arr sock payload pre.length (ds.length + m)
      = ds.map (fun d =>
          if getSocketForHandle arr d = -1 then
            sendErrorForInvalidHandle sock d
          else ⟨getSocketForHandle arr d, 5, payload⟩)
        ++ processDests arr sock payload
            (pre.length + (encodeDests ds).length) m
  | [], pre, post, m => by
    intro hp _
    simp [encodeDests]
  | d :: ds', pre, post, m => by
    intro hp hd
    have hdlen : d.length ≤ 100 := hd d (List.mem_cons_self _ _)
    have hshape : payload = pre ++ (d.length :: d)
        ++ (encodeDests ds' ++ post) := by
      rw [hp]
      simp [encodeDests, List.flatMap_cons, List.append_assoc]
    have hcl : (d :: ds').length + m = ds'.length + m + 1 := by
      simp only [List.length_cons]; omega
    rw [hcl]
    have hnext := getNextDestinationHandle_encoded pre d
      (encodeDests ds' ++ post) hdlen
    rw [← hshape] at hnext
    rw [processDests_succ_some arr sock payload pre.length (ds'.length + m)
      d (pre.length + 1 + d.length) hnext]
    have hpre' : pre.length + 1 + d.length
        = (pre ++ (d.length :: d)).length := by
      simp only [List.length_append, List.length_cons] <;> omega
    rw [hpre']
    rw [processDests_encoded arr sock payload ds' (pre ++ (d.length :: d))
      post m (by rw [hshape]; simp)
      (fun x hx => hd x (List.mem_cons_of_mem _ hx))]
    have hoffeq : (pre ++ (d.length :: d)).length
        + (encodeDests ds').length
        = pre.length + (encodeDests (d :: ds')).length := by
      simp only [encodeDests, List.flatMap_cons, List.length_append,
        List.length_cons]
      omega
    rw [hoffeq]
    simp [List.map_cons, List.cons_append]

/-- One destination's handling, rewritten from the code-level lookup to
the specification-level directory search. -/
theorem destSend_eq_find (arr : List Entry_Handle_Table) (sock : Int)
    (payload : List Nat) (d : List Nat)
    (hs : SortedTable arr) (hn : NulFreeTable arr)
    (hsock : ∀ e ∈ arr, e.socketNumber ≠ -1) (hd0 : (0 : Nat) ∉ d) :
    (if getSocketForHandle arr d = -1 then
      sendErrorForInvalidHandle sock d
    else ⟨getSocketForHandle arr d, 5, payload⟩)
    = (match arr.find? (fun e => decide (caseFold e.handle = caseFold d)) with
      | none => ⟨sock, 7, d.length :: d⟩
      | some e => ⟨e.socketNumber, 5, payload⟩) := by
  rcases hf : arr.find? (fun e => decide (caseFold e.handle = caseFold d))
    with _ | e
  · have hnone : ∀ x ∈ arr, caseFold x.handle ≠ caseFold d := by
      intro x hx
      have := List.find?_eq_none.mp hf x hx
      simpa using this
    have hm1 : getSocketForHandle arr d = -1 :=
      (getSocketForHandle_eq_neg_one_iff hs hn hd0 hsock).mpr hnone
    rw [if_pos hm1, hf]
    unfold sendErrorForInvalidHandle
    rw [cstrOf_eq_self hd0]
  · have hmem := List.mem_of_find?_eq_some hf
    have hpred := List.find?_some hf
    simp only [decide_eq_true_eq] at hpred
    have hlook := getSocketForHandle_eq_of_mem hs hn hmem hd0 hpred
    rw [if_neg (by rw [hlook]; exact hsock e hmem), hlook, hf]

/-! ## C4: direct-message routing -/

/-- C4.  For every received DirectMessage payload encoding a sender, a
destination list and a text, the router resolves each destination in
order against the directory: an unknown handle yields exactly one
UnknownDestinationError PDU (flag 7, payload the length-prefixed
offending handle) back to the sender only, and processing continues
with the remaining destinations; a resolved handle receives the entire
received payload unchanged with type `MESSAGE_PACKET = 5`. -/
theorem forwardDirectMessage_spec (arr : List Entry_Handle_Table)
    (senderSocket : Int) (sender : List Nat) (dests : List (List Nat))
    (text : List Nat)
    (hs : SortedTable arr) (hn : NulFreeTable arr)
    (hsock : ∀ e ∈ arr, e.socketNumber ≠ -1)
    (hsl : sender.length ≤ 100) (hcnt : dests.length ≤ 255)
    (hd : ∀ d ∈ dests, d.length ≤ 100 ∧ (0 : Nat) ∉ d) :
    forwardDirectMessage arr senderSocket
        ([sender.length] ++ sender ++ [dests.length] ++ encodeDests dests
          ++ text)
      = dests.map (fun d =>
          match arr.find? (fun e => decide (caseFold e.handle = caseFold d))
          with
          | none => ⟨senderSocket, 7, d.length :: d⟩
          | some e => ⟨e.socketNumber, 5,
              [sender.length] ++ sender ++ [dests.length]
                ++ encodeDests dests ++ text⟩) := by
  have hparse := parseSenderAndDestinations_encoded sender dests.length
    (encodeDests dests ++ text) hsl
  unfold forwardDirectMessage
  rw [show [sender.length] ++ sender ++ [dests.length] ++ encodeDests dests
        ++ text
      = [sender.length] ++ sender ++ [dests.length]
        ++ (encodeDests dests ++ text) by simp]
  rw [hparse]
  show processDests arr senderSocket _ (1 + sender.length + 1)
      dests.length = _
  have hsplit := processDests_encoded arr senderSocket
    ([sender.length] ++ sender ++ [dests.length] ++ (encodeDests dests ++ text))
    dests ([sender.length] ++ sender ++ [dests.length]) text 0 (by simp)
    (fun d hdm => (hd d hdm).1)
  rw [Nat.add_zero] at hsplit
  have hoff : 1 + sender.length + 1
      = ([sender.length] ++ sender ++ [dests.length] : List Nat).length := by
    simp only [List.length_append, List.length_cons, List.length_nil] <;> omega
  rw [hoff, hsplit, processDests_zero, List.append_nil]
  apply List.map_congr_left
  intro d hdm
  rw [destSend_eq_find arr senderSocket _ d hs hn hsock (hd d hdm).2]

/-- Witness for C4: the spec's example — destinations
`[valid1, unknown, valid2]` against a directory holding `valid1` and
`valid2`. -/
theorem forwardDirectMessage_spec_witness :
    forwardDirectMessage
        [⟨1, [118, 97, 108, 105, 100, 49]⟩, ⟨2, [118, 97, 108, 105, 100, 50]⟩]
        9
        ([1] ++ [115] ++ [3]
          ++ encodeDests [[118, 97, 108, 105, 100, 49], [117, 110, 107],
            [118, 97, 108, 105, 100, 50]]
          ++ [104, 105])
      = [[118, 97, 108, 105, 100, 49], [117, 110, 107],
          [118, 97, 108, 105, 100, 50]].map (fun d =>
          match
            [(⟨1, [118, 97, 108, 105, 100, 49]⟩ : Entry_Handle_Table),
              ⟨2, [118, 97, 108, 105, 100, 50]⟩].find?
              (fun e => decide (caseFold e.handle = caseFold d))
          with
          | none => ⟨9, 7, d.length :: d⟩
          | some e => ⟨e.socketNumber, 5,
              [1] ++ [115] ++ [3]
                ++ encodeDests [[118, 97, 108, 105, 100, 49],
                  [117, 110, 107], [118, 97, 108, 105, 100, 50]]
                ++ [104, 105]⟩) :=
  forwardDirectMessage_spec
    [⟨1, [118, 97, 108, 105, 100, 49]⟩, ⟨2, [118, 97, 108, 105, 100, 50]⟩]
    9 [115]
    [[118, 97, 108, 105, 100, 49], [117, 110, 107],
      [118, 97, 108, 105, 100, 50]]
    [104, 105] (by decide) (by decide) (by decide) (by decide) (by decide)
    (by decide)

/-! ## C10: malformed destination fields -/

theorem binarySearch_nil (t : List Nat) : binarySearch [] t = -1 := by
  unfold binarySearch
  rw [bsearchGo, if_neg (by simp)]

theorem getSocketForHandle_nil (t : List Nat) :
    getSocketForHandle [] t = -1 := by
  unfold getSocketForHandle
  rw [binarySearch_nil]
  simp

/-- C10 counterexample.  The claim treats a declared destination length
of 100 as malformed ("declared length of 100 or more"), demanding that
processing stop with no error PDU for it.  But the code's bound is
`destLen >= maxDestSize` with `maxDestSize = MaxNameLen + 1 = 101`: a
destination field declaring length 100 (with 100 bytes present) is
parsed normally — here it is looked up, not found, and reported with an
UnknownDestinationError PDU. -/
theorem destLen100_accepted_cex :
    forwardDirectMessage [] 5 ([1, 97, 1, 100] ++ List.replicate 100 98)
      = [⟨5, 7, 100 :: List.replicate 100 98⟩] := by
  have hparse : parseSenderAndDestinations
      ([1, 97, 1, 100] ++ List.replicate 100 98) = some ([97], 1, 3) := by
    decide
  have hnext : getNextDestinationHandle
      ([1, 97, 1, 100] ++ List.replicate 100 98) 3
      = some (List.replicate 100 98, 104) := by
    decide
  unfold forwardDirectMessage
  rw [hparse]
  show processDests [] 5 ([1, 97, 1, 100] ++ List.replicate 100 98) 3 (0 + 1)
    = _
  rw [processDests_succ_some [] 5 _ 3 0 (List.replicate 100 98) 104 hnext]
  rw [if_pos (getSocketForHandle_nil _), processDests_zero]
  unfold sendErrorForInvalidHandle
  rw [cstrOf_eq_self (by decide : (0 : Nat) ∉ List.replicate 100 98)]
  rw [List.length_replicate]

/-- C10 amended.  A destination field is malformed when the payload is
exhausted before its length byte, when its declared length runs past
the end of the payload, or when its declared length is **101 or more**
(`maxDestSize = MaxNameLen + 1`); exactly these three conditions make
`getNextDestinationHandle` fail.  When the field after `k` well-formed
destinations is malformed (and the declared count exceeds `k`), the
router keeps the sends already produced for those `k` destinations —
per-destination forwarded copies or UnknownDestinationError PDUs — and
stops: no later destination is resolved, forwarded to, or reported, and
no PDU of any kind is sent for the malformed entry itself. -/
theorem forwardDirectMessage_malformed_stops
    (arr : List Entry_Handle_Table) (senderSocket : Int) (sender : List Nat)
    (dests : List (List Nat)) (tail : List Nat) (n : Nat)
    (hs : SortedTable arr) (hn : NulFreeTable arr)
    (hsock : ∀ e ∈ arr, e.socketNumber ≠ -1)
    (hsl : sender.length ≤ 100) (hcnt : dests.length < n) (hn255 : n ≤ 255)
    (hd : ∀ d ∈ dests, d.length ≤ 100 ∧ (0 : Nat) ∉ d)
    (hfail : getNextDestinationHandle
      ([sender.length] ++ sender ++ [n] ++ (encodeDests dests ++ tail))
      (([sender.length] ++ sender ++ [n] : List Nat).length
        + (encodeDests dests).length) = none) :
    (∀ (q : List Nat) (off : Nat),
      getNextDestinationHandle q off = none ↔
        (q.length ≤ off ∨ q.length < off + 1 + q.getD off 0
          ∨ 101 ≤ q.getD off 0))
    ∧ forwardDirectMessage arr senderSocket
        ([sender.length] ++ sender ++ [n] ++ (encodeDests dests ++ tail))
      = dests.map (fun d =>
          match arr.find? (fun e => decide (caseFold e.handle = caseFold d))
          with
          | none => ⟨senderSocket, 7, d.length :: d⟩
          | some e => ⟨e.socketNumber, 5,
              [sender.length] ++ sender ++ [n]
                ++ (encodeDests dests ++ tail)⟩) := by
  constructor
  · intro q off
    unfold getNextDestinationHandle
    by_cases h1 : q.length ≤ off
    · rw [if_pos h1]
      exact iff_of_true rfl (Or.inl h1)
    · rw [if_neg h1]
      by_cases h2 : q.length < off + 1 + q.getD off 0
      · rw [if_pos h2]
        exact iff_of_true rfl (Or.inr (Or.inl h2))
      · rw [if_neg h2]
        by_cases h3 : 101 ≤ q.getD off 0
        · rw [if_pos h3]
          exact iff_of_true rfl (Or.inr (Or.inr h3))
        · rw [if_neg h3]
          constructor
          · intro h; simp at h
          · intro h; rcases h with h | h | h <;> omega
  · have hparse := parseSenderAndDestinations_encoded sender n
      (encodeDests dests ++ tail) hsl
    unfold forwardDirectMessage
    rw [hparse]
    show processDests arr senderSocket _ (1 + sender.length + 1) n = _
    have hsplit := processDests_encoded arr senderSocket
      ([sender.length] ++ sender ++ [n] ++ (encodeDests dests ++ tail))
      dests ([sender.length] ++ sender ++ [n]) tail (n - dests.length)
      (by simp) (fun d hdm => (hd d hdm).1)
    have hco : dests.length + (n - dests.length) = n := by omega
    rw [hco] at hsplit
    have hoff : 1 + sender.length + 1
        = ([sender.length] ++ sender ++ [n] : List Nat).length := by
      simp only [List.length_append, List.length_cons, List.length_nil] <;> omega
    rw [hoff, hsplit]
    have hm : n - dests.length = (n - dests.length - 1) + 1 := by omega
    rw [hm, processDests_succ_none _ _ _ _ _ hfail, List.append_nil]
    apply List.map_congr_left
    intro d hdm
    exact destSend_eq_find arr senderSocket _ d hs hn hsock (hd d hdm).2

/-- Witness for the amended C10: one valid destination `"a"`, count 2,
and a second field whose declared length (120) runs past the end of the
payload. -/
theorem forwardDirectMessage_malformed_stops_witness :
    (∀ (q : List Nat) (off : Nat),
      getNextDestinationHandle q off = none ↔
        (q.length ≤ off ∨ q.length < off + 1 + q.getD off 0
          ∨ 101 ≤ q.getD off 0))
    ∧ forwardDirectMessage [⟨1, [97]⟩] 9
        ([1] ++ [115] ++ [2] ++ (encodeDests [[97]] ++ [120]))
      = [[97]].map (fun d =>
          match [(⟨1, [97]⟩ : Entry_Handle_Table)].find?
              (fun e => decide (caseFold e.handle = caseFold d))
          with
          | none => ⟨9, 7, d.length :: d⟩
          | some e => ⟨e.socketNumber, 5,
              [1] ++ [115] ++ [2] ++ (encodeDests [[97]] ++ [120])⟩) :=
  forwardDirectMessage_malformed_stops [⟨1, [97]⟩] 9 [115] [[97]] [120] 2
    (by decide) (by decide) (by decide) (by decide) (by decide) (by decide)
    (by decide) (by decide)

/-- Witness for C1 at a concrete input. -/
theorem pdu_roundtrip_witness :
    recvBufFromStream (sendBuf 5 [10, 20, 30]) =
      RecvOutcome.pkt 5 [10, 20, 30]
    ∧ (sendBuf 5 [10, 20, 30]).take 2 = [0, 6]
    ∧ (sendBuf 5 [10, 20, 30]).getD 2 0 = 5 := by
  have h := pdu_roundtrip 5 [10, 20, 30] (by decide) (by decide)
  simpa using h

end Chat

namespace Chat

/-! ## Client-side message segmentation (`cclient.cpp`) -/

/-- `MAX_TEXT_PER_PACKET` (cclient.cpp, line 96): maximum bytes of the
text portion of each packet, NUL terminator included. -/
def MAX_TEXT_PER_PACKET : Nat := 200

/-- The addressing header built by `handleMessageCommand` (cclient.cpp,
lines 691–706): `[1-byte sender length][sender][1-byte destination
count]` then each destination length-prefixed. -/
def buildMsgHeader (sender : List Nat) (dests : List (List Nat)) :
    List Nat :=
  [sender.length] ++ sender ++ [dests.length] ++ encodeDests dests

/-- The segmentation loop of `handleMessageCommand` (cclient.cpp, lines
731–750): while `pos < messageLen`, take
`segmentLength = (messageLen - pos > 199) ? 199 : messageLen - pos`
text bytes (`MAX_SEGMENT = MAX_TEXT_PER_PACKET - 1`), emit one PDU of
type `MESSAGE_PACKET = 5` holding a full header copy, the segment, and
a NUL terminator, and advance `pos`. -/
def segmentLoop (socketNum : Int) (header msg : List Nat) (pos : Nat) :
    List Send :=
  if pos < msg.length then
    ⟨socketNum, 5, header
        ++ (msg.drop pos).take
          (if 199 < msg.length - pos then 199 else msg.length - pos)
        ++ [0]⟩
      :: segmentLoop socketNum header msg
        (pos + (if 199 < msg.length - pos then 199 else msg.length - pos))
  else []
termination_by msg.length - pos
decreasing_by split <;> omega

/-- `handleMessageCommand`'s sending stage (cclient.cpp, lines
708–751): an empty message sends one packet of header plus NUL,
otherwise the segmentation loop runs from position 0. -/
def handleMessageCommand (socketNum : Int) (sender : List Nat)
    (dests : List (List Nat)) (msg : List Nat) : List Send :=
  if msg.length = 0 then
    [⟨socketNum, 5, buildMsgHeader sender dests ++ [0]⟩]
  else segmentLoop socketNum (buildMsgHeader sender dests) msg 0

/-- Specification-side chunking of a byte string into maximal runs of
at most 199 bytes. -/
def chunks199 : List Nat → List (List Nat)
  | [] => []
  | a :: t => (a :: t).take 199 :: chunks199 ((a :: t).drop 199)
termination_by l => l.length
decreasing_by simp only [List.length_drop, List.length_cons]; omega

theorem chunks199_nil : chunks199 [] = [] := by rw [chunks199]

theorem chunks199_cons (a : Nat) (t : List Nat) :
    chunks199 (a :: t)
      = (a :: t).take 199 :: chunks199 ((a :: t).drop 199) := by
  rw [chunks199]

/-- The chunks concatenate back to the original string (segments are
ordered and non-overlapping). -/
theorem chunks199_flatten (l : List Nat) : (chunks199 l).flatten = l := by
  generalize hn : l.length = n
  induction n using Nat.strong_induction_on generalizing l with
  | _ n ih =>
    rcases l with _ | ⟨a, t⟩
    · rw [chunks199_nil]; rfl
    · rw [chunks199_cons, List.flatten_cons]
      have hlt : ((a :: t).drop 199).length < n := by
        rw [← hn]; simp only [List.length_drop, List.length_cons]; omega
      rw [ih _ hlt ((a :: t).drop 199) rfl]
      exact List.take_append_drop _ _

theorem chunks199_length (l : List Nat) :
    (chunks199 l).length = (l.length + 198) / 199 := by
  generalize hn : l.length = n
  induction n using Nat.strong_induction_on generalizing l with
  | _ n ih =>
    rcases l with _ | ⟨a, t⟩
    · subst hn; rw [chunks199_nil]; decide
    · rw [chunks199_cons, List.length_cons]
      have hlt : ((a :: t).drop 199).length < n := by
        rw [← hn]; simp only [List.length_drop, List.length_cons]; omega
      rw [ih _ hlt ((a :: t).drop 199) rfl]
      simp only [List.length_drop, List.length_cons] at *
      omega

theorem chunks199_mem (l : List Nat) :
    ∀ seg ∈ chunks199 l, seg ≠ [] ∧ seg.length ≤ 199 := by
  generalize hn : l.length = n
  induction n using Nat.strong_induction_on generalizing l with
  | _ n ih =>
    rcases l with _ | ⟨a, t⟩
    · intro seg hseg; exact absurd hseg (by rw [chunks199_nil]; simp)
    · intro seg hseg
      rw [chunks199_cons] at hseg
      rcases List.mem_cons.mp hseg with rfl | htail
      · constructor
        · simp [List.take_succ_cons]
        · rw [List.length_take]; omega
      · have hlt : ((a :: t).drop 199).length < n := by
          rw [← hn]; simp only [List.length_drop, List.length_cons]; omega
        exact ih _ hlt ((a :: t).drop 199) rfl seg htail

/-- The segmentation loop emits exactly the chunks of the remaining
message, each wrapped as header ++ segment ++ NUL with flag 5. -/
theorem segmentLoop_eq_chunks (sock : Int) (header msg : List Nat) :
    ∀ pos : Nat, segmentLoop sock header msg pos
      = (chunks199 (msg.drop pos)).map
          (fun seg => ⟨sock, 5, header ++ seg ++ [0]⟩) := by
  intro pos
  generalize hn : msg.length - pos = n
  induction n using Nat.strong_induction_on generalizing pos with
  | _ n ih =>
    rw [segmentLoop]
    by_cases hlt : pos < msg.length
    · rw [if_pos hlt]
      have hdlen : (msg.drop pos).length = msg.length - pos :=
        List.length_drop _ _
      rcases hmd : msg.drop pos with _ | ⟨a, t⟩
      · exfalso
        have := congrArg List.length hmd
        rw [hdlen] at this
        simp at this
        omega
      · have hlen' : (a :: t).length = msg.length - pos := by
          rw [← hmd]; exact hdlen
        rw [chunks199_cons, List.map_cons]
        by_cases hbig : 199 < msg.length - pos
        · rw [if_pos hbig]
          have htl : msg.drop (pos + 199) = (a :: t).drop 199 := by
            rw [← hmd, List.drop_drop, Nat.add_comm]
          rw [ih (msg.length - (pos + 199)) (by omega) (pos + 199) rfl, htl]
        · rw [if_neg hbig]
          have htk1 : (a :: t).take (msg.length - pos) = a :: t := by
            rw [← hlen', List.take_length]
          have htk2 : (a :: t).take 199 = a :: t :=
            List.take_of_length_le (by omega)
          have htl : msg.drop (pos + (msg.length - pos)) = [] :=
            List.drop_eq_nil_of_le (by omega)
          have htl2 : (a :: t).drop 199 = [] :=
            List.drop_eq_nil_of_le (by omega)
          rw [ih (msg.length - (pos + (msg.length - pos))) (by omega) _ rfl]
          rw [htl, htl2, htk1, htk2, chunks199_nil]
    · rw [if_neg hlt]
      rw [List.drop_eq_nil_of_le (by omega : msg.length ≤ pos), chunks199_nil]
      rfl

/-- C8 amended.  For every nonempty outbound direct-message body, the
sender emits exactly `ceil(L / (M − 1))` packets (M = 200 bytes of text
including the NUL terminator, so 199 body bytes per packet), all of
type `MESSAGE_PACKET = 5`, each carrying a complete copy of the
addressing header (sender and destination list) followed by its
segment's NUL-terminated text; the segments are ordered,
non-overlapping, nonempty, each at most `M − 1` bytes, and concatenate
to the original body. -/
theorem handleMessageCommand_spec (socketNum : Int) (sender : List Nat)
    (dests : List (List Nat)) (msg : List Nat) (hne : msg ≠ []) :
    handleMessageCommand socketNum sender dests msg
      = (chunks199 msg).map (fun seg =>
          ⟨socketNum, 5, buildMsgHeader sender dests ++ seg ++ [0]⟩)
    ∧ (handleMessageCommand socketNum sender dests msg).length
        = (msg.length + (MAX_TEXT_PER_PACKET - 1) - 1)
            / (MAX_TEXT_PER_PACKET - 1)
    ∧ (chunks199 msg).flatten = msg
    ∧ (∀ seg ∈ chunks199 msg,
        seg ≠ [] ∧ seg.length + 1 ≤ MAX_TEXT_PER_PACKET) := by
  have h0 : ¬msg.length = 0 := by
    intro h; exact hne (List.eq_nil_of_length_eq_zero h)
  have heq : handleMessageCommand socketNum sender dests msg
      = (chunks199 msg).map (fun seg =>
          ⟨socketNum, 5, buildMsgHeader sender dests ++ seg ++ [0]⟩) := by
    unfold handleMessageCommand
    rw [if_neg h0, segmentLoop_eq_chunks, List.drop_zero]
  refine ⟨heq, ?_, chunks199_flatten msg, ?_⟩
  · rw [heq, List.length_map, chunks199_length]
    show (msg.length + 198) / 199 = (msg.length + (200 - 1) - 1) / (200 - 1)
    norm_num
  · intro seg hseg
    have := chunks199_mem msg seg hseg
    exact ⟨this.1, by have := this.2; unfold MAX_TEXT_PER_PACKET; omega⟩

/-- Witness for the amended C8 at a concrete input. -/
theorem handleMessageCommand_spec_witness :
    handleMessageCommand 3 [97] [[98]] [104, 105]
      = (chunks199 [104, 105]).map (fun seg =>
          ⟨3, 5, buildMsgHeader [97] [[98]] ++ seg ++ [0]⟩)
    ∧ (handleMessageCommand 3 [97] [[98]] [104, 105]).length
        = (([104, 105] : List Nat).length + (MAX_TEXT_PER_PACKET - 1) - 1)
            / (MAX_TEXT_PER_PACKET - 1)
    ∧ (chunks199 [104, 105]).flatten = [104, 105]
    ∧ (∀ seg ∈ chunks199 [104, 105],
        seg ≠ [] ∧ seg.length + 1 ≤ MAX_TEXT_PER_PACKET) :=
  handleMessageCommand_spec 3 [97] [[98]] [104, 105] (by decide)

/-- C8 counterexample.  A 399-byte body is sent as 3 packets
(`ceil(399/199) = 3`), but the claim's formula `ceil(L/M)` with
`M = MAX_TEXT_PER_PACKET = 200` predicts `ceil(399/200) = 2`. -/
theorem segment_count_cex :
    (handleMessageCommand 3 [97] [[98]] (List.replicate 399 120)).length = 3
    ∧ (399 + MAX_TEXT_PER_PACKET - 1) / MAX_TEXT_PER_PACKET = 2 := by
  constructor
  · unfold handleMessageCommand
    rw [if_neg (by rw [List.length_replicate]; omega)]
    rw [segmentLoop_eq_chunks, List.drop_zero, List.length_map,
      chunks199_length, List.length_replicate]
  · decide

end Chat

namespace Chat

/-! ## C9: case-insensitive handle matching at the public interface -/

theorem removeElementBySocket_id :
    ∀ (arr : List Entry_Handle_Table) (s : Int),
      (∀ e ∈ arr, e.socketNumber ≠ s) → removeElementBySocket arr s = arr
  | [], _ => fun _ => rfl
  | a :: t, s => by
    intro h
    unfold removeElementBySocket
    rw [if_neg (h a (List.mem_cons_self _ _))]
    rw [removeElementBySocket_id t s
      (fun e he => h e (List.mem_cons_of_mem _ he))]

/-- C9.  Handle matching is ASCII case-insensitive at the public
interface: registering a handle that differs from a registered handle
only in letter case is rejected as a duplicate — the server sends the
registration-error PDU (flag 3, empty payload) and closes the new
connection, leaving the directory unchanged — and the lookup used both
by the duplicate check and by direct-message destination resolution
returns the registered entry's connection rather than the not-found
result `-1`. -/
theorem case_insensitive_handles (arr : List Entry_Handle_Table)
    (e : Entry_Handle_Table) (h2 : List Nat) (sock : Int)
    (hs : SortedTable arr) (hn : NulFreeTable arr)
    (he : e ∈ arr) (hcf : caseFold h2 = caseFold e.handle)
    (hlen1 : 1 ≤ h2.length) (hlen2 : h2.length ≤ 100)
    (hnul : (0 : Nat) ∉ h2)
    (hfresh : ∀ x ∈ arr, x.socketNumber ≠ sock)
    (hes : e.socketNumber ≠ -1) :
    processRegistration arr sock 1 (h2.length :: h2)
      = ⟨[⟨sock, 3, []⟩], arr, true⟩
    ∧ getSocketForHandle arr h2 = e.socketNumber
    ∧ getSocketForHandle arr h2 ≠ -1 := by
  have hlook : getSocketForHandle arr h2 = e.socketNumber :=
    getSocketForHandle_eq_of_mem hs hn he hnul hcf.symm
  refine ⟨?_, hlook, by rw [hlook]; exact hes⟩
  unfold processRegistration
  rw [if_neg (by simp : ¬((h2.length :: h2).length < 1 ∨ (1 : Nat) ≠ 1))]
  rw [if_neg (by
    simp only [List.getD_cons_zero, List.length_cons]
    omega :
    ¬((h2.length :: h2).getD 0 0 = 0 ∨ 100 < (h2.length :: h2).getD 0 0
      ∨ (h2.length :: h2).length < 1 + (h2.length :: h2).getD 0 0))]
  have hext : ((h2.length :: h2).drop 1).take ((h2.length :: h2).getD 0 0)
      = h2 := List.take_length h2
  rw [hext]
  rw [if_pos (by rw [hlook]; exact hes)]
  rw [removeElementBySocket_id arr sock hfresh]

/-- Witness for C9: `"Alice"` registered on socket 4, then `"alice"`
attempts to register from socket 9 and resolves as a destination. -/
theorem case_insensitive_handles_witness :
    processRegistration [⟨4, [65, 108, 105, 99, 101]⟩] 9 1
        [5, 97, 108, 105, 99, 101]
      = ⟨[⟨9, 3, []⟩], [⟨4, [65, 108, 105, 99, 101]⟩], true⟩
    ∧ getSocketForHandle [⟨4, [65, 108, 105, 99, 101]⟩]
        [97, 108, 105, 99, 101] = 4
    ∧ getSocketForHandle [⟨4, [65, 108, 105, 99, 101]⟩]
        [97, 108, 105, 99, 101] ≠ -1 :=
  case_insensitive_handles [⟨4, [65, 108, 105, 99, 101]⟩]
    ⟨4, [65, 108, 105, 99, 101]⟩ [97, 108, 105, 99, 101] 9
    (by decide) (by decide) (by decide) (by decide) (by decide) (by decide)
    (by decide) (by decide) (by decide)

end Chat
